import Mathlib

/-!
# Verification of the CCC workflow system (parser, validator, executor)

Shallow embedding of the Python sources `bin/lib/workflow_parser.py`,
`bin/lib/workflow_validator.py` and `bin/lib/workflow_executor.py`.

Modelling conventions:
* Python strings are `String` / `List Char`; `str.strip`, `str.split`,
  `str.lower`, substring tests are re-implemented over `List Char`
  (ASCII whitespace and ASCII lowercasing; the workflows under test are
  ASCII).
* Python dicts keyed by strings are association lists (first-match lookup;
  the keys produced by the code are pairwise distinct, so insertion-order
  versus overwrite semantics never differ).
* Filesystem access (`Path.exists`, agent JSON files) is abstracted into
  oracles collected in an environment record; wall-clock timing
  (`time.time`, `time.sleep`) is not modelled, but the sleep *durations*
  requested by the retry loop are recorded in an explicit trace.
* Exceptions are `Except String`; a total Lean function models a Python
  function that cannot raise.
-/

namespace CCC

/-! ## Python string primitives -/

/-- ASCII whitespace, as stripped by Python `str.strip()`. -/
def pyIsSpace (c : Char) : Bool :=
  c == ' ' || c == Char.ofNat 9 || c == Char.ofNat 10 || c == Char.ofNat 13 ||
  c == Char.ofNat 11 || c == Char.ofNat 12

/-- `str.strip()` on a character list. -/
def pyStripL (l : List Char) : List Char :=
  ((l.dropWhile pyIsSpace).reverse.dropWhile pyIsSpace).reverse

/-- `str.strip()`. -/
def pyStrip (s : String) : String := ⟨pyStripL s.data⟩

/-- `str.lower()` (ASCII). -/
def pyLower (s : String) : String := ⟨s.data.map Char.toLower⟩

/-- Contiguous-subsequence test: models Python `needle in haystack`. -/
def hasSeg (needle : List Char) : List Char → Bool
  | [] => decide (needle = [])
  | a :: rest => needle.isPrefixOf (a :: rest) || hasSeg needle rest

/-- Python `needle in haystack` on strings. -/
def pyContains (needle hay : String) : Bool := hasSeg needle.data hay.data

/-- Split at the first occurrence of `c`: models `s.split(c, 1)` returning
two parts (`none` when `c` does not occur, i.e. Python returns one part). -/
def splitFirst (c : Char) : List Char → Option (List Char × List Char)
  | [] => none
  | a :: rest =>
    if a = c then some ([], rest)
    else
      match splitFirst c rest with
      | some (l, r) => some (a :: l, r)
      | none => none

/-- Python `s.split(c)` (all occurrences, keeping empty parts). -/
def pySplitL (c : Char) (l : List Char) : List (List Char) :=
  l.foldr
    (fun ch acc =>
      if ch = c then [] :: acc
      else
        match acc with
        | h :: t => (ch :: h) :: t
        | [] => [[ch]])
    [[]]

/-! ## Python literal values and `ast.literal_eval`

`WorkflowParser._parse_parameters` feeds candidate value texts to
`ast.literal_eval`.  `literalEval` below models that Python standard-library
function on these literal forms: `True` / `False` / `None`; decimal
integers with optional sign, single underscores between digits and the
leading-zero restriction; hex / octal / binary integers (`0x…`, `0o…`,
`0b…`); floats with optional fractional part and `e`/`E` exponent (the
value is kept as an exact rational — IEEE-754 rounding and overflow to
infinity are not modelled); quoted strings without escape sequences;
(possibly nested) list and tuple displays with trailing commas; and
parenthesised literals.  Out of scope, counted as parse failures:
complex literals (`1j`), bytes (`b'…'`), dict and set displays, `...`,
string escape sequences / prefixes / implicit concatenation, whitespace
between a unary sign and its operand, and doubled unary signs.  Like the
original, parsing is case-sensitive, so `true` is *not* a boolean literal.

Every theorem below uses `literalEval` only where it provably agrees with
`ast.literal_eval`: on the concrete texts of the claims, and — for the
universally quantified fallback clause of C8 — on all-alphabetic value
texts, which CPython parses as bare names, never as literals. -/

/-- A parsed Python literal value (the dynamic type stored in
`WorkflowDefinition.parameters`). -/
inductive PyValue where
  | int (z : Int)
  | float (q : ℚ)
  | bool (b : Bool)
  | str (s : String)
  | list (xs : List PyValue)
  | tuple (xs : List PyValue)
  | pyNone

/-- Drop leading whitespace. -/
def skipWs (l : List Char) : List Char := l.dropWhile pyIsSpace

/-- ASCII decimal digit (48-57), the digits accepted by Python number
tokens. -/
def pyIsDigit (c : Char) : Bool := 48 ≤ c.toNat && c.toNat ≤ 57

/-- ASCII letter (A-Z, a-z). -/
def pyAlpha (c : Char) : Bool :=
  (65 ≤ c.toNat && c.toNat ≤ 90) || (97 ≤ c.toNat && c.toNat ≤ 122)

/-- Value of a decimal digit character. -/
def digitVal (c : Char) : Nat := c.toNat - 48

/-- ASCII hexadecimal digit. -/
def isHexDig (c : Char) : Bool :=
  pyIsDigit c || (97 ≤ c.toNat && c.toNat ≤ 102) ||
    (65 ≤ c.toNat && c.toNat ≤ 70)

/-- Value of a hexadecimal digit character. -/
def hexVal (c : Char) : Nat :=
  if pyIsDigit c then c.toNat - 48
  else if 97 ≤ c.toNat then c.toNat - 87
  else c.toNat - 55

/-- ASCII octal digit. -/
def isOctDig (c : Char) : Bool := 48 ≤ c.toNat && c.toNat ≤ 55

/-- Binary digit. -/
def isBinDig (c : Char) : Bool := c == '0' || c == '1'

/-- Does the list start with a decimal digit? -/
def headDigit (l : List Char) : Bool :=
  match l with
  | c :: _ => pyIsDigit c
  | [] => false

/-- Does the list start with the digit `0`? -/
def headZero (l : List Char) : Bool :=
  match l with
  | c :: _ => c == '0'
  | [] => false

/-- Consume a run of digits (per `isD`/`dval` in the given base) with
single underscores allowed between digits, as in Python numeric tokens:
returns (value, number of digits consumed, rest).  An underscore not
followed by a digit ends the run, so `1_` and `1__0` leave a rest that
makes the whole-text parse fail — exactly the texts CPython rejects. -/
def numRun (isD : Char → Bool) (dval : Char → Nat) (base : Nat) :
    Nat → Nat → List Char → Nat × Nat × List Char
  | acc, nd, [] => (acc, nd, [])
  | acc, nd, c :: rest =>
    if isD c then numRun isD dval base (acc * base + dval c) (nd + 1) rest
    else if c = '_' then
      match rest with
      | c2 :: _ =>
        if isD c2 then numRun isD dval base acc nd rest
        else (acc, nd, c :: rest)
      | [] => (acc, nd, c :: rest)
    else (acc, nd, c :: rest)

/-- An integer in base 2/8/16 after its `0b`/`0o`/`0x` prefix (a leading
underscore is allowed there, as in `0x_1F`). -/
def baseIntRun (isD : Char → Bool) (dval : Char → Nat) (base : Nat)
    (rest : List Char) : Option (PyValue × List Char) :=
  let (val, nd, r) := numRun isD dval base 0 0 rest
  if nd = 0 then none else some (.int (val : Int), r)

/-- Exponent part after the `e`/`E`: optional sign, then digits. -/
def parseExpAfterE (r2 : List Char) : Option (Int × List Char) :=
  let sgnRest : Int × List Char :=
    match r2 with
    | '+' :: r => (1, r)
    | '-' :: r => (-1, r)
    | _ => (1, r2)
  if headDigit sgnRest.2 then
    let (ev, _, r4) := numRun pyIsDigit digitVal 10 0 0 sgnRest.2
    some (sgnRest.1 * (ev : Int), r4)
  else none

/-- Optional float exponent. -/
def parseExp (r : List Char) : Option (Int × List Char) :=
  match r with
  | 'e' :: r2 => parseExpAfterE r2
  | 'E' :: r2 => parseExpAfterE r2
  | _ => none

/-- Apply a decimal exponent to a rational mantissa. -/
def applyExp (q : ℚ) (e : Int) : ℚ :=
  if 0 ≤ e then q * (10 : ℚ) ^ e.toNat else q / (10 : ℚ) ^ (-e).toNat

/-- A decimal integer or float token: integer part, optional `.` fraction,
optional exponent.  Python's leading-zero restriction applies to plain
decimal integers only: a decimal integer starting with `0` must be zero
(`01` is rejected; `00` is 0; `01.5` and `0e1` are valid floats). -/
def parseDecFloatCore (l : List Char) : Option (PyValue × List Char) :=
  let (ip, ipN, r1) :=
    if headDigit l then numRun pyIsDigit digitVal 10 0 0 l else (0, 0, l)
  match r1 with
  | '.' :: r2 =>
    let (fp, fN, r3) :=
      if headDigit r2 then numRun pyIsDigit digitVal 10 0 0 r2 else (0, 0, r2)
    if ipN = 0 ∧ fN = 0 then none
    else
      let mant : ℚ := (ip : ℚ) + (fp : ℚ) / (10 : ℚ) ^ fN
      match parseExp r3 with
      | some (e, r4) => some (.float (applyExp mant e), r4)
      | none => some (.float mant, r3)
  | _ =>
    if ipN = 0 then none
    else
      match parseExp r1 with
      | some (e, r2) => some (.float (applyExp (ip : ℚ) e), r2)
      | none =>
        if headZero l ∧ ip ≠ 0 then none
        else some (.int (ip : Int), r1)

/-- A decimal number token; anything not starting with a digit or `.` is
not a number. -/
def parseDecFloat (l : List Char) : Option (PyValue × List Char) :=
  match l with
  | c :: _ => if pyIsDigit c || c == '.' then parseDecFloatCore l else none
  | [] => none

/-- An unsigned Python number token: `0x`/`0o`/`0b` integers or a decimal
integer/float. -/
def parseUnsignedNum (l : List Char) : Option (PyValue × List Char) :=
  match l with
  | '0' :: b :: rest =>
    if b = 'x' ∨ b = 'X' then baseIntRun isHexDig hexVal 16 rest
    else if b = 'o' ∨ b = 'O' then baseIntRun isOctDig digitVal 8 rest
    else if b = 'b' ∨ b = 'B' then baseIntRun isBinDig digitVal 2 rest
    else parseDecFloat l
  | _ => parseDecFloat l

/-- Unary minus on a parsed number. -/
def pyNeg : PyValue → PyValue
  | .int z => .int (-z)
  | .float q => .float (-q)
  | v => v

/-- Parse a quoted string literal (no escapes), given the quote character
already removed from the input head. -/
def parseQuoted (q : Char) (l : List Char) : Option (PyValue × List Char) :=
  let body := l.takeWhile (fun c => c != q)
  match l.drop body.length with
  | c :: rest => if c = q then some (.str ⟨body⟩, rest) else none
  | [] => none

mutual

/-- Recursive-descent parser for one Python literal; returns the value and
the unconsumed rest.  `(…)` yields the inner literal when no comma follows
it (a parenthesised expression) and a tuple otherwise; `()` is the empty
tuple. -/
def parseLit : Nat → List Char → Option (PyValue × List Char)
  | 0, _ => none
  | fuel + 1, l =>
    let l := skipWs l
    if "True".data.isPrefixOf l then some (.bool true, l.drop 4)
    else if "False".data.isPrefixOf l then some (.bool false, l.drop 5)
    else if "None".data.isPrefixOf l then some (.pyNone, l.drop 4)
    else
      match l with
      | '[' :: rest =>
        (match parseElems ']' fuel rest with
         | some (xs, r) => some (.list xs, r)
         | none => none)
      | '(' :: rest =>
        (match skipWs rest with
         | ')' :: r => some (.tuple [], r)
         | l2 =>
           match parseLit fuel l2 with
           | none => none
           | some (v, r) =>
             match skipWs r with
             | ')' :: r2 => some (v, r2)
             | ',' :: r2 =>
               (match parseElems ')' fuel r2 with
                | some (xs, r3) => some (.tuple (v :: xs), r3)
                | none => none)
             | _ => none)
      | c :: rest =>
        if c = Char.ofNat 39 ∨ c = Char.ofNat 34 then parseQuoted c rest
        else if c = '-' then
          (match parseUnsignedNum rest with
           | some (v, r) => some (pyNeg v, r)
           | none => none)
        else if c = '+' then parseUnsignedNum rest
        else parseUnsignedNum (c :: rest)
      | [] => none

/-- Parse the elements of a list or tuple display up to and including the
closing bracket `close` (Python allows a trailing comma). -/
def parseElems : Char → Nat → List Char → Option (List PyValue × List Char)
  | _, 0, _ => none
  | close, fuel + 1, l =>
    match skipWs l with
    | [] => none
    | c :: r =>
      if c = close then some ([], r)
      else
        match parseLit fuel (c :: r) with
        | none => none
        | some (v, r1) =>
          match skipWs r1 with
          | ',' :: r2 =>
            (match parseElems close fuel r2 with
             | some (xs, r3) => some (v :: xs, r3)
             | none => none)
          | c2 :: r2 => if c2 = close then some ([v], r2) else none
          | [] => none

end

/-- Model of `ast.literal_eval`: succeeds iff the whole text is a single
literal (surrounding whitespace allowed), otherwise `none` (Python raises
`ValueError`/`SyntaxError`, which `_parse_parameters` catches). -/
def literalEval (s : String) : Option PyValue :=
  match parseLit (2 * s.length + 2) s.data with
  | some (v, rest) => if skipWs rest = [] then some v else none
  | none => none

/-! ## `WorkflowParser._parse_parameters` -/

/-- Python dict insertion `d[k] = v` on an association list. -/
def dictInsert (d : List (String × PyValue)) (k : String) (v : PyValue) :
    List (String × PyValue) :=
  match d with
  | [] => [(k, v)]
  | (k', v') :: rest =>
    if k' = k then (k, v) :: rest else (k', v') :: dictInsert rest k v

/-- One iteration of the `_parse_parameters` line loop
(`workflow_parser.py` lines 186-213): strip the line, require a colon and a
`- `/`* ` marker, split at the first colon, take the value text up to the
first `(` (the regex `^([^(]+)`), try `literal_eval`, fall back to the raw
string. -/
def parseParamLine (rawLine : List Char) : Option (String × PyValue) :=
  let line := pyStripL rawLine
  if line.contains ':' ∧ ("- ".data.isPrefixOf line ∨ "* ".data.isPrefixOf line) then
    let paramLine := pyStripL (line.drop 2)
    match splitFirst ':' paramLine with
    | none => none
    | some (k, v) =>
      let key : String := ⟨pyStripL k⟩
      let valueDesc := pyStripL v
      let actual := valueDesc.takeWhile (fun c => c != '(')
      if actual = [] then some (key, .str ⟨valueDesc⟩)
      else
        let actualS : String := ⟨pyStripL actual⟩
        match literalEval actualS with
        | some pv => some (key, pv)
        | none => some (key, .str actualS)
  else none

/-- `WorkflowParser._parse_parameters` (`workflow_parser.py` lines 182-215).
Total: no input text makes it raise. -/
def parseParameters (text : String) : List (String × PyValue) :=
  (pySplitL (Char.ofNat 10) text.data).foldl
    (fun d line =>
      match parseParamLine line with
      | some (k, v) => dictInsert d k v
      | none => d)
    []

/-! ## Workflow data model (`workflow_parser.py` dataclasses) -/

/-- `WorkflowStage` (`workflow_parser.py` lines 13-25). -/
structure WorkflowStage where
  name : String
  description : String
  dependencies : List String
  recommendedAgents : List String
  suggestedMcps : List String
  parallelTasks : List String
  successCriteria : List String
  expectedOutputs : List String
  expectedCorrelations : List String
  warnings : List String

/-- An entry of `WorkflowDefinition.inputs`: the validator accepts both a
plain string and a dict with `location` / `fallback_method`
(`workflow_validator.py` lines 166-171). -/
inductive InputSpec where
  | strVal (s : String)
  | dictVal (location : String) (fallbackMethod : Bool)

/-- `WorkflowDefinition` (`workflow_parser.py` lines 27-42). -/
structure WorkflowDefinition where
  name : String
  description : String
  goal : String
  context : String
  requirements : List String
  expectedChallenges : List String
  parameters : List (String × PyValue)
  inputs : List (String × InputSpec)
  stages : List WorkflowStage
  expectedOutputs : List String
  templateSelection : Option String
  clientSlug : Option String
  estimatedTime : Option Nat

/-! ## Validator environment

The validator reads the filesystem (`_discover_available_agents`,
`_get_agent_capabilities`, `Path.exists`).  Those reads are abstracted as
oracles; every theorem about the validator quantifies over them. -/

structure ValidatorEnv where
  /-- `_discover_available_agents` result. -/
  availableAgents : List String
  /-- `_discover_available_mcps` result (a constant list in the code, but
  kept abstract so theorems cover any discovery outcome). -/
  availableMcps : List String
  /-- whether `_get_agent_capabilities` finds a readable JSON for an agent. -/
  agentHasCapabilities : String → Bool
  /-- `Path.exists` oracle on rendered path strings. -/
  pathExists : String → Bool
  /-- the `ccc_root` path string. -/
  cccRoot : String

/-- `ValidationResult` (`workflow_validator.py` lines 15-25). -/
structure ValidationResult where
  isValid : Bool
  agentsAvailable : Bool
  mcpsAvailable : Bool
  inputFilesValid : Bool
  noConflicts : Bool
  errors : List String
  warnings : List String
  suggestions : List String

/-- Python `', '.join`. -/
def joinComma (l : List String) : String :=
  match l with
  | [] => ""
  | [a] => a
  | a :: rest => a ++ ", " ++ joinComma rest

/-- De-duplicating collection in first-appearance order: models building a
Python `set` whose iteration order we fix to insertion order (the claims
only inspect membership and counts of the resulting messages). -/
def dedup (l : List String) : List String := l.eraseDups

/-! ## Validator sub-checks (`workflow_validator.py`) -/

/-- `_suggest_agent_alternatives` (lines 307-320): keyword matching, top 3. -/
def suggestAgentAlternatives (missing : String) (avail : List String) : List String :=
  (if pyContains "SEO" missing then
    avail.filter (fun a => pyContains "SEO" a || pyContains "Benchmark" a)
  else if pyContains "Codebase" missing then
    avail.filter (fun a => pyContains "Feature" a || pyContains "Quality" a)
  else if pyContains "Metrics" missing then
    avail.filter (fun a => pyContains "Report" a || pyContains "Data" a)
  else []).take 3

/-- `_suggest_mcp_alternatives` (lines 322-335). -/
def suggestMcpAlternatives (missing : String) (avail : List String) : List String :=
  (if pyContains "dataforseo" (pyLower missing) then
    avail.filter (fun m =>
      pyContains "firecrawl" (pyLower m) || pyContains "perplexity" (pyLower m))
  else if pyContains "chart" (pyLower missing) then
    avail.filter (fun m => pyContains "visual" (pyLower m))
  else if pyContains "gsc" (pyLower missing) then
    avail.filter (fun m => pyContains "dataforseo" (pyLower m))
  else []).take 3

/-- `_validate_agents` (lines 96-126).  Returns
(result, errors, warnings, suggestions).  The Python `set` of required
agents is modelled as a first-appearance de-duplicated list; the claims
settled here only inspect membership and counts, which do not depend on
the (unspecified) Python set iteration order. -/
def validateAgents (env : ValidatorEnv) (wf : WorkflowDefinition) :
    Bool × List String × List String × List String :=
  let required := dedup (wf.stages.flatMap (·.recommendedAgents))
  let missing := required.filter (fun a => decide (a ∉ env.availableAgents))
  if missing ≠ [] then
    (false,
     missing.map (fun a => "Agent not available: " ++ a),
     [],
     missing.flatMap (fun a =>
       let alts := suggestAgentAlternatives a env.availableAgents
       if alts ≠ [] then
         ["Alternative agents for " ++ a ++ ": " ++ joinComma alts]
       else []))
  else
    (true,
     [],
     (wf.stages.flatMap (fun st =>
        st.recommendedAgents.filter (fun a => !env.agentHasCapabilities a))).map
       (fun a => "Could not verify capabilities for agent: " ++ a),
     [])

/-- `_validate_mcps` (lines 128-151). -/
def validateMcps (env : ValidatorEnv) (wf : WorkflowDefinition) :
    Bool × List String × List String :=
  let required := dedup (wf.stages.flatMap (·.suggestedMcps))
  let missing := required.filter (fun m => decide (m ∉ env.availableMcps))
  if missing ≠ [] then
    (false,
     missing.map (fun m => "MCP not available: " ++ m),
     missing.flatMap (fun m =>
       let alts := suggestMcpAlternatives m env.availableMcps
       if alts ≠ [] then
         ["Alternative MCPs for " ++ m ++ ": " ++ joinComma alts]
       else []))
  else (true, [], [])

/-- Python truthiness of `workflow.client_slug` (`None` and `""` are falsy). -/
def clientSlugTruthy (wf : WorkflowDefinition) : Option String :=
  match wf.clientSlug with
  | some s => if s = "" then none else some s
  | none => none

/-- Messages contributed by one entry of `workflow.inputs` in
`_validate_input_files` (lines 166-185): (warnings, suggestions). -/
def inputFileMsgs (env : ValidatorEnv) (wf : WorkflowDefinition)
    (nm : String) (info : InputSpec) : List String × List String :=
  let inputPath := match info with | .dictVal loc _ => loc | .strVal s => s
  if inputPath ≠ "" ∧ inputPath.startsWith "inputs/" then
    let fullPath :=
      match clientSlugTruthy wf with
      | some slug => env.cccRoot ++ "/seo-projects/" ++ slug ++ "/" ++ inputPath
      | none => inputPath
    if env.pathExists fullPath then ([], [])
    else if pyContains "required" (pyLower nm) ||
        (match info with | .dictVal _ fb => !fb | .strVal _ => false) then
      (["Input file not found: " ++ inputPath],
       ["Create input file or specify fallback method for: " ++ nm])
    else (["Optional input file not found: " ++ inputPath], [])
  else ([], [])

/-- `_validate_input_files` (lines 153-187).  `all_valid` is initialised to
`True` and never reassigned, so the first component is always `true`. -/
def validateInputFiles (env : ValidatorEnv) (wf : WorkflowDefinition) :
    Bool × List String × List String :=
  let client :=
    match clientSlugTruthy wf with
    | some slug =>
      let dir := env.cccRoot ++ "/seo-projects/" ++ slug ++ "/inputs"
      if env.pathExists dir then ([], [])
      else (["Client data directory does not exist: " ++ dir],
            ["Create client directory: mkdir -p " ++ dir])
    | none => ([], [])
  let per := wf.inputs.map (fun p => inputFileMsgs env wf p.1 p.2)
  (true, client.1 ++ (per.map (·.1)).flatten, client.2 ++ (per.map (·.2)).flatten)

/-- `_stages_are_sequential` (lines 351-362). -/
def stagesAreSequential (stages : List WorkflowStage) (i j : Nat) : Bool :=
  if i ≥ stages.length ∨ j ≥ stages.length then false
  else
    match stages[j]? with
    | some st => st.dependencies.contains ("Stage " ++ toString (i + 1))
    | none => false

/-- Inner loop of `_validate_no_conflicts` over one stage's agents
(lines 197-206): returns the updated `agent_usage` map and the
warnings/suggestions emitted. -/
def agentConflictLoop (stages : List WorkflowStage) (i : Nat)
    (agentUse : String → Option Nat) :
    List String → (String → Option Nat) × List String × List String
  | [] => (agentUse, [], [])
  | a :: rest =>
    let msgs :=
      match agentUse a with
      | some prev =>
        if !stagesAreSequential stages prev i then
          (["Agent " ++ a ++ " may be needed by multiple parallel stages"],
           ["Consider using alternative agents or making stages sequential"])
        else ([], [])
      | none => ([], [])
    let use' : String → Option Nat := fun x => if x = a then some i else agentUse x
    let (useF, ws, ss) := agentConflictLoop stages i use' rest
    (useF, msgs.1 ++ ws, msgs.2 ++ ss)

/-- Inner loop of `_validate_no_conflicts` over one stage's MCPs
(lines 208-212). -/
def mcpConflictLoop (i : Nat) (mcpUse : String → Option Nat) :
    List String → (String → Option Nat) × List String
  | [] => (mcpUse, [])
  | m :: rest =>
    let w :=
      match mcpUse m with
      | some _ => ["MCP " ++ m ++ " used in multiple stages - check rate limits"]
      | none => []
    let use' : String → Option Nat := fun x => if x = m then some i else mcpUse x
    let (useF, ws) := mcpConflictLoop i use' rest
    (useF, w ++ ws)

/-- Stage loop of `_validate_no_conflicts`. -/
def noConflictsLoop (stages : List WorkflowStage)
    (agentUse mcpUse : String → Option Nat) :
    List (Nat × WorkflowStage) → List String × List String
  | [] => ([], [])
  | (i, st) :: rest =>
    let (aUse, w1, s1) := agentConflictLoop stages i agentUse st.recommendedAgents
    let (mUse, w2) := mcpConflictLoop i mcpUse st.suggestedMcps
    let (w3, s3) := noConflictsLoop stages aUse mUse rest
    (w1 ++ w2 ++ w3, s1 ++ s3)

/-- `_validate_no_conflicts` (lines 189-214).  `no_conflicts` is initialised
to `True` and never reassigned, so the first component is always `true`. -/
def validateNoConflicts (stages : List WorkflowStage) :
    Bool × List String × List String :=
  let (ws, ss) := noConflictsLoop stages (fun _ => none) (fun _ => none) stages.enum
  (true, ws, ss)

/-! ## Cycle detection (`_has_circular_dependencies`, lines 364-396)

The Python code builds `graph = {"Stage i+1": stages[i].dependencies}` and
runs a recursive DFS with a shared `visited` set and a per-root `rec_stack`
set; a neighbour already on the recursion stack means a cycle.  The Lean
embedding threads `visited` explicitly, passes `rec_stack` downwards (Python
removes the node again before returning, so the caller's stack is
unchanged), and uses fuel for termination; `hasCircularDependencies` supplies
fuel `|nodes| + 1`, which the completeness proof shows is never exhausted. -/

/-- `graph.get(node, [])`. -/
def lookupDeps (g : List (String × List String)) (node : String) : List String :=
  match g.find? (fun p => p.1 == node) with
  | some p => p.2
  | none => []

/-- The dependency graph of the `Stage N` names (lines 367-372). -/
def buildGraph (stages : List WorkflowStage) : List (String × List String) :=
  stages.enum.map (fun p => ("Stage " ++ toString (p.1 + 1), p.2.dependencies))

/-- Every node name occurring in the graph (keys and dependency targets). -/
def allNodes (g : List (String × List String)) : Finset String :=
  g.foldr (fun p acc => insert p.1 (p.2.foldr insert acc)) ∅

/-- The `for neighbor in graph.get(node, [])` loop inside `has_cycle`
(lines 379-385), parametrised by the recursive visit `step`: a neighbour
not yet visited is visited recursively, a visited neighbour on the
recursion stack is a cycle, any other visited neighbour is skipped. -/
def dfsListF
    (step : String → Finset String → Finset String → Bool × Finset String) :
    List String → Finset String → Finset String → Bool × Finset String
  | [], vis, _ => (false, vis)
  | w :: ws, vis, stack =>
    if w ∉ vis then
      match step w vis stack with
      | (true, vis') => (true, vis')
      | (false, vis') => dfsListF step ws vis' stack
    else if w ∈ stack then (true, vis)
    else dfsListF step ws vis stack

/-- `has_cycle(node, visited, rec_stack)` (lines 375-387): add the node to
`visited` and to the recursion stack, then run the neighbour loop.  Python
removes the node from `rec_stack` before returning, so the caller's stack
is passed down unchanged.  The fuel argument only serves termination;
`hasCircularDependencies` supplies enough for it never to run out. -/
def dfsVisit (g : List (String × List String)) :
    Nat → String → Finset String → Finset String → Bool × Finset String
  | 0, _, vis, _ => (false, vis)
  | fuel + 1, node, vis, stack =>
    dfsListF (dfsVisit g fuel) (lookupDeps g node)
      (insert node vis) (insert node stack)

/-- The outer `for node in graph` loop (lines 389-394): shared `visited`,
fresh `rec_stack` per root. -/
def dfsRoots (g : List (String × List String)) (fuel : Nat) :
    List String → Finset String → Bool × Finset String
  | [], vis => (false, vis)
  | k :: ks, vis =>
    if k ∉ vis then
      match dfsVisit g fuel k vis ∅ with
      | (true, vis') => (true, vis')
      | (false, vis') => dfsRoots g fuel ks vis'
    else dfsRoots g fuel ks vis

/-- `_has_circular_dependencies` (lines 364-396). -/
def hasCircularDependencies (stages : List WorkflowStage) : Bool :=
  (dfsRoots (buildGraph stages) ((allNodes (buildGraph stages)).card + 1)
    ((buildGraph stages).map (·.1)) ∅).1

/-- The dependency edge relation of the built graph: `gedge g a b` iff `b`
is listed among the dependencies stored for node `a`. -/
def gedge (g : List (String × List String)) (a b : String) : Prop :=
  b ∈ lookupDeps g a

/-- DFS invariant: every visited node that is not on the recursion stack is
*finished* — all its successors are visited and off the stack, and no cycle
passes through it. -/
def DfsInv (g : List (String × List String)) (stack vis : Finset String) :
    Prop :=
  ∀ v ∈ vis, v ∉ stack →
    (∀ w, gedge g v w → w ∈ vis ∧ w ∉ stack) ∧
    ¬ Relation.TransGen (gedge g) v v

/-- Completeness contract of `dfsVisit` at a given fuel: under the DFS
invariant and with enough fuel, a `false` answer leaves the invariant intact
with the node newly finished. -/
def VisitOK (g : List (String × List String)) (fuel : Nat) : Prop :=
  ∀ node vis stack res, dfsVisit g fuel node vis stack = res →
    (allNodes g \ vis).card < fuel → node ∈ allNodes g → node ∉ vis →
    stack ⊆ vis → vis ⊆ allNodes g → DfsInv g stack vis →
    res.1 = false →
    vis ⊆ res.2 ∧ node ∈ res.2 ∧ res.2 ⊆ allNodes g ∧ DfsInv g stack res.2

/-- `_validate_workflow_structure` (lines 216-232):
(errors, warnings, suggestions).  An empty stage list and a detected cycle
are errors; an empty goal and an excessive time estimate are warnings. -/
def validateStructure (wf : WorkflowDefinition) :
    List String × List String × List String :=
  let e1 := if wf.stages.isEmpty then ["Workflow has no stages defined"] else []
  let w1 := if wf.goal = "" then ["Workflow goal is not clearly defined"] else []
  let e2 :=
    if hasCircularDependencies wf.stages then
      ["Circular dependencies detected in workflow stages"]
    else []
  let tw :=
    match wf.estimatedTime with
    | some t =>
      if t > 480 then
        (["Estimated time (" ++ toString t ++ " min) seems excessive"],
         ["Consider breaking workflow into smaller parts"])
      else ([], [])
    | none => ([], [])
  (e1 ++ e2, w1 ++ tw.1, tw.2)

/-- The error text of `_validate_dependencies` for one dangling token. -/
def depErrMsg (stageNm dep : String) : String :=
  "Stage \x27" ++ stageNm ++ "\x27 depends on non-existent stage: " ++ dep

/-- The set `{f"Stage {i+1}"}` of valid dependency tokens (line 237). -/
def stageNames (wf : WorkflowDefinition) : List String :=
  (List.range wf.stages.length).map (fun i => "Stage " ++ toString (i + 1))

/-- `_validate_dependencies` (lines 234-242): one error per dependency token
that names no existing stage. -/
def validateDependencies (wf : WorkflowDefinition) : List String :=
  wf.stages.flatMap (fun st =>
    (st.dependencies.filter (fun d => decide (d ∉ stageNames wf))).map
      (fun d => depErrMsg st.name d))

/-- `WorkflowValidator.validate_workflow` (lines 37-82).  The parse outcome
is passed as an `Except` (the parser reads the filesystem); on parse failure
the single error entry is recorded and every boolean is `false`.  Total by
construction: no input makes it raise. -/
def validateWorkflow (env : ValidatorEnv)
    (parsed : Except String WorkflowDefinition) : ValidationResult :=
  match parsed with
  | .error msg =>
    { isValid := false, agentsAvailable := false, mcpsAvailable := false,
      inputFilesValid := false, noConflicts := false,
      errors := ["Failed to parse workflow: " ++ msg],
      warnings := [], suggestions := [] }
  | .ok wf =>
    let (agentsOk, e1, w1, s1) := validateAgents env wf
    let (mcpsOk, e2, s2) := validateMcps env wf
    let (inputsOk, w3, s3) := validateInputFiles env wf
    let (noConf, w4, s4) := validateNoConflicts wf.stages
    let (e5, w5, s5) := validateStructure wf
    let e6 := validateDependencies wf
    let errors := e1 ++ e2 ++ e5 ++ e6
    { isValid := errors.isEmpty, agentsAvailable := agentsOk,
      mcpsAvailable := mcpsOk, inputFilesValid := inputsOk,
      noConflicts := noConf,
      errors := errors,
      warnings := w1 ++ w3 ++ w4 ++ w5,
      suggestions := s1 ++ s2 ++ s3 ++ s4 ++ s5 }

/-! ## Executor (`workflow_executor.py`)

`_execute_stage` only simulates work (prints, sleeps, canned outputs) and
returns `{'success': True, ...}` unless an exception occurs inside it, in
which case it returns `{'success': False, ...}` (lines 204-244).  Whether a
given invocation succeeds is therefore abstracted as an oracle
`exec : Nat → Nat → Bool` (stage position in the list, attempt number:
attempt `0` is the initial try, attempt `k+1` is retry `k`).  Wall-clock
time and the report/archive file writes are not modelled; the sleep
durations requested by `_retry_stage` and the number of `_execute_stage`
invocations are recorded in a `StageTrace`. -/

/-- `ExecutionResult` (lines 18-29); the wall-clock `execution_time` and the
simulated `correlations_found` payload are not modelled. -/
structure ExecutionResult where
  success : Bool
  stagesCompleted : Nat
  totalStages : Nat
  outputDirectory : Option String
  errorMessage : Option String
  partResults : Bool
  estimatedTime : Option ℚ := none

/-- Per-stage attempt record: how many times `_execute_stage` ran for the
stage, which sleeps the retry loop requested (in order), and whether the
stage ended up succeeding. -/
structure StageTrace where
  attempts : Nat
  retryDelays : List Nat
  succeeded : Bool

/-- The `for attempt in range(max_retries)` loop of `_retry_stage`
(lines 356-366), started at attempt number `attempt` with `remaining`
iterations left: sleeps `retry_delay * 2 ** attempt`, re-executes, and
returns on the first success.  Result: (success, sleeps requested,
number of `_execute_stage` invocations). -/
def retryLoop (d : Nat) (execA : Nat → Bool) :
    Nat → Nat → Bool × List Nat × Nat
  | _, 0 => (false, [], 0)
  | attempt, remaining + 1 =>
    let delay := d * 2 ^ attempt
    if execA attempt then (true, [delay], 1)
    else
      let (ok, ds, n) := retryLoop d execA (attempt + 1) remaining
      (ok, delay :: ds, n + 1)

/-- `_retry_stage` (lines 350-367): runs the retry loop from attempt 0;
when every retry fails it returns `{'success': False,
'error': 'Max retries exceeded'}`. -/
def retryStage (maxRetries d : Nat) (execA : Nat → Bool) :
    Bool × List Nat × Nat :=
  retryLoop d execA 0 maxRetries

/-- The stage loop of `_perform_execution` (lines 136-171), starting at
stage position `i`.  Returns (stages_completed, partial_results, trace).
On initial failure: policy `"stop"` sets `partial_results` and breaks;
policy `"retry"` runs `_retry_stage` and on exhaustion sets
`partial_results` and breaks (the `error_handling != 'continue'` test on
line 169 is inside the `retry` branch, so it always breaks there); any
other policy value (notably `"continue"`) falls through to the next stage
without touching `partial_results`. -/
def runStages (policy : String) (maxRetries d : Nat) (exec : Nat → Nat → Bool) :
    List WorkflowStage → Nat → Nat × Bool × List StageTrace
  | [], _ => (0, false, [])
  | _ :: rest, i =>
    if exec i 0 then
      let (c, p, tr) := runStages policy maxRetries d exec rest (i + 1)
      (c + 1, p, ⟨1, [], true⟩ :: tr)
    else if policy = "stop" then (0, true, [⟨1, [], false⟩])
    else if policy = "retry" then
      let (ok, ds, n) := retryStage maxRetries d (fun k => exec i (k + 1))
      if ok then
        let (c, p, tr) := runStages policy maxRetries d exec rest (i + 1)
        (c + 1, p, ⟨1 + n, ds, true⟩ :: tr)
      else (0, true, [⟨1 + n, ds, false⟩])
    else
      let (c, p, tr) := runStages policy maxRetries d exec rest (i + 1)
      (c, p, ⟨1, [], false⟩ :: tr)

/-- `_perform_execution` (lines 115-202), normal return path
(lines 179-188): `success = stages_completed == len(stages)`,
`output_directory` is the directory created at the start of the run. -/
def performExecution (wf : WorkflowDefinition) (policy : String)
    (maxRetries d : Nat) (exec : Nat → Nat → Bool) (outDir : String) :
    ExecutionResult :=
  let (completed, part, _) := runStages policy maxRetries d exec wf.stages 0
  { success := decide (completed = wf.stages.length),
    stagesCompleted := completed,
    totalStages := wf.stages.length,
    outputDirectory := some outDir,
    errorMessage := none,
    partResults := part }

/-- `_estimate_stage_time` (lines 594-611), in minutes (the `*1.5` / `*0.5`
adjustments make this a rational). -/
def estimateStageTime (st : WorkflowStage) : ℚ :=
  let base : ℚ := 5 + (if st.recommendedAgents.length > 1 then 2 else 0) +
    (if st.suggestedMcps.length > 2 then 3 else 0)
  if pyContains "comprehensive" (pyLower st.description) then base * (3 / 2)
  else if pyContains "quick" (pyLower st.description) then base * (1 / 2)
  else base

/-- `_perform_dry_run` (lines 77-113): always succeeds, completes no stage,
creates no output directory, and reports the summed time estimate. -/
def performDryRun (wf : WorkflowDefinition) : ExecutionResult :=
  { success := true,
    stagesCompleted := 0,
    totalStages := wf.stages.length,
    outputDirectory := none,
    errorMessage := none,
    partResults := false,
    estimatedTime := some ((wf.stages.map estimateStageTime).sum) }

/-- `execute_workflow` (lines 51-75).  The parse outcome is passed as an
`Except`.  When parsing raises, control reaches the `except` block with the
local variable `workflow` never assigned; evaluating
`len(workflow.stages) if workflow else 0` (line 70) then raises
`UnboundLocalError`, which propagates to the caller — modelled by the
`Except.error` result.  (The block's intent is clearly to return the failed
`ExecutionResult`; the embedding mirrors what the code does.) -/
def executeWorkflow (parsed : Except String WorkflowDefinition)
    (dryRun : Bool) (policy : String) (maxRetries d : Nat)
    (exec : Nat → Nat → Bool) (outDir : String) :
    Except String ExecutionResult :=
  match parsed with
  | .ok wf =>
    .ok (if dryRun then performDryRun wf
         else performExecution wf policy maxRetries d exec outDir)
  | .error _ =>
    .error "UnboundLocalError: local variable \x27workflow\x27 referenced before assignment"

/-! ## Concrete fixtures used by the claims -/

/-- A stage with a name and dependency list only (all other fields empty);
the shape produced by `_parse_stages` before any attribute lines. -/
def mkStage (nm : String) (deps : List String) : WorkflowStage :=
  ⟨nm, "", deps, [], [], [], [], [], [], []⟩

/-- A minimal parsed workflow with a goal and stage list. -/
def mkWorkflow (goal : String) (stages : List WorkflowStage) :
    WorkflowDefinition :=
  ⟨"wf", "", goal, "", [], [], [], [], stages, [], none, none, none⟩

/-- An environment with no discoverable agents or MCPs and every path
present (the fixture workflows request no agents, MCPs or inputs). -/
def testEnv : ValidatorEnv :=
  ⟨[], [], fun _ => true, fun _ => true, "/ccc"⟩

/-- The diamond workflow of the spec: Stage 2 and Stage 3 depend on
Stage 1, Stage 4 depends on both. -/
def diamondWf : WorkflowDefinition :=
  mkWorkflow "Analyze the data"
    [mkStage "Collect" [],
     mkStage "Branch A" ["Stage 1"],
     mkStage "Branch B" ["Stage 1"],
     mkStage "Report" ["Stage 2", "Stage 3"]]

/-- The cyclic workflow of the spec: Stage 1 depends on Stage 3 and
Stage 3 depends on Stage 1. -/
def cyclicWf : WorkflowDefinition :=
  mkWorkflow "Analyze the data"
    [mkStage "One" ["Stage 3"],
     mkStage "Two" [],
     mkStage "Three" ["Stage 1"]]

/-- A 3-stage workflow whose second stage declares the dangling dependency
`Stage 9`. -/
def danglingWf : WorkflowDefinition :=
  mkWorkflow "Analyze the data"
    [mkStage "Collect" [],
     mkStage "Analyze" ["Stage 9"],
     mkStage "Report" ["Stage 2"]]

/-- A workflow with one stage and an empty goal. -/
def emptyGoalWf : WorkflowDefinition := mkWorkflow "" [mkStage "Only" []]

/-- A workflow with a single stage. -/
def oneStageWf : WorkflowDefinition := mkWorkflow "g" [mkStage "Only" []]

/-- A two-stage workflow for the `continue`-policy counterexample. -/
def contWf : WorkflowDefinition :=
  mkWorkflow "g" [mkStage "A" [], mkStage "B" []]

/-- Execution oracle where stage 0 always fails and every other stage
succeeds immediately. -/
def contExec : Nat → Nat → Bool := fun i _ => decide (i ≠ 0)

instance (g : List (String × List String)) (a b : String) :
    Decidable (gedge g a b) :=
  inferInstanceAs (Decidable (b ∈ lookupDeps g a))

/-! ## DFS soundness: a `true` answer exhibits a cycle -/

/-- If every recursion-stack entry reaches the parent node `u`, every
neighbour list entry is a successor of `u`, and the neighbour loop reports
a cycle, then the graph has a cycle — provided the recursive `step` is
itself sound in the same sense. -/
theorem dfsListF_sound (g : List (String × List String))
    (step : String → Finset String → Finset String → Bool × Finset String)
    (hstep : ∀ w vis stack, (∀ s ∈ stack, Relation.ReflTransGen (gedge g) s w) →
      (step w vis stack).1 = true → ∃ n, Relation.TransGen (gedge g) n n)
    (u : String) :
    ∀ ws vis stack, (∀ w ∈ ws, gedge g u w) →
      (∀ s ∈ stack, Relation.ReflTransGen (gedge g) s u) →
      (dfsListF step ws vis stack).1 = true →
      ∃ n, Relation.TransGen (gedge g) n n := by
  intro ws
  induction ws with
  | nil => intro vis stack _ _ h; simp [dfsListF] at h
  | cons w ws ih =>
    intro vis stack hws hstack hres
    rw [dfsListF] at hres
    by_cases hw : w ∈ vis
    · simp only [hw, not_true_eq_false, if_false] at hres
      by_cases hw2 : w ∈ stack
      · exact ⟨w, Relation.TransGen.tail'
          (hstack w hw2) (hws w (List.mem_cons_self w ws))⟩
      · simp only [hw2, if_false] at hres
        exact ih vis stack (fun x hx => hws x (List.mem_cons_of_mem w hx))
          hstack hres
    · simp only [hw, not_false_eq_true, if_true] at hres
      rcases heq : step w vis stack with ⟨b, vis'⟩
      rw [heq] at hres
      match b with
      | true =>
        exact hstep w vis stack
          (fun s hs => (hstack s hs).tail (hws w (List.mem_cons_self w ws)))
          (by rw [heq])
      | false =>
        exact ih vis' stack (fun x hx => hws x (List.mem_cons_of_mem w hx))
          hstack hres

/-- `has_cycle` soundness: if the recursion stack consists of nodes that
reach `node` and the DFS answers `true`, the graph has a cycle. -/
theorem dfsVisit_sound (g : List (String × List String)) :
    ∀ fuel node vis stack,
      (∀ s ∈ stack, Relation.ReflTransGen (gedge g) s node) →
      (dfsVisit g fuel node vis stack).1 = true →
      ∃ n, Relation.TransGen (gedge g) n n := by
  intro fuel
  induction fuel with
  | zero => intro node vis stack _ h; simp [dfsVisit] at h
  | succ fuel ih =>
    intro node vis stack hstack hres
    rw [dfsVisit] at hres
    refine dfsListF_sound g (dfsVisit g fuel)
      (fun w vis' stack' h1 h2 => ih w vis' stack' h1 h2) node
      (lookupDeps g node) (insert node vis) (insert node stack)
      (fun w hw => hw) ?_ hres
    intro s hs
    rcases Finset.mem_insert.mp hs with rfl | hs
    · exact Relation.ReflTransGen.refl
    · exact hstack s hs

/-- Soundness of the root loop: a `true` overall answer exhibits a cycle. -/
theorem dfsRoots_sound (g : List (String × List String)) (fuel : Nat) :
    ∀ ks vis, (dfsRoots g fuel ks vis).1 = true →
      ∃ n, Relation.TransGen (gedge g) n n := by
  intro ks
  induction ks with
  | nil => intro vis h; simp [dfsRoots] at h
  | cons k ks ih =>
    intro vis hres
    rw [dfsRoots] at hres
    by_cases hk : k ∈ vis
    · simp only [hk, not_true_eq_false, if_false] at hres
      exact ih vis hres
    · simp only [hk, not_false_eq_true, if_true] at hres
      rcases heq : dfsVisit g fuel k vis ∅ with ⟨b, vis'⟩
      rw [heq] at hres
      match b with
      | true =>
        exact dfsVisit_sound g fuel k vis ∅ (by simp) (by rw [heq])
      | false => exact ih vis' hres

/-- `_has_circular_dependencies` soundness. -/
theorem hasCirc_sound (stages : List WorkflowStage) :
    hasCircularDependencies stages = true →
    ∃ n, Relation.TransGen (gedge (buildGraph stages)) n n := by
  intro h
  exact dfsRoots_sound (buildGraph stages) _ _ _ h

/-! ## DFS completeness: a `false` answer means the graph is acyclic -/

/-- Membership in a `foldr insert` accumulation. -/
theorem mem_foldr_insert (l : List String) (s : Finset String) (x : String) :
    x ∈ l.foldr insert s ↔ x ∈ l ∨ x ∈ s := by
  induction l with
  | nil => simp
  | cons a l ih => simp [List.foldr, Finset.mem_insert, ih, or_assoc]

/-- Characterisation of `allNodes`. -/
theorem mem_allNodes (g : List (String × List String)) (x : String) :
    x ∈ allNodes g ↔ ∃ p ∈ g, x = p.1 ∨ x ∈ p.2 := by
  induction g with
  | nil => simp [allNodes]
  | cons p g ih =>
    show x ∈ insert p.1 (p.2.foldr insert (allNodes g)) ↔ _
    simp only [Finset.mem_insert, mem_foldr_insert, ih]
    constructor
    · rintro (rfl | hx | ⟨q, hq, hx⟩)
      · exact ⟨p, List.mem_cons_self p g, Or.inl rfl⟩
      · exact ⟨p, List.mem_cons_self p g, Or.inr hx⟩
      · exact ⟨q, List.mem_cons_of_mem p hq, hx⟩
    · rintro ⟨q, hq, hx⟩
      rcases List.mem_cons.mp hq with rfl | hq
      · rcases hx with rfl | hx
        · exact Or.inl rfl
        · exact Or.inr (Or.inl hx)
      · exact Or.inr (Or.inr ⟨q, hq, hx⟩)

/-- Dependency targets occur among the graph's nodes. -/
theorem lookupDeps_mem_allNodes (g : List (String × List String))
    (node w : String) (h : w ∈ lookupDeps g node) : w ∈ allNodes g := by
  unfold lookupDeps at h
  rcases heq : g.find? (fun p => p.1 == node) with _ | p
  · rw [heq] at h; simp at h
  · rw [heq] at h
    exact (mem_allNodes g w).mpr ⟨p, List.mem_of_find?_eq_some heq, Or.inr h⟩

/-- Graph keys occur among the graph's nodes. -/
theorem key_mem_allNodes (g : List (String × List String))
    (p : String × List String) (hp : p ∈ g) : p.1 ∈ allNodes g :=
  (mem_allNodes g p.1).mpr ⟨p, hp, Or.inl rfl⟩

/-- Under the DFS invariant, anything reachable from a finished node is
itself finished (in particular, off the recursion stack). -/
theorem reach_closed (g : List (String × List String))
    (stack vis : Finset String) (h : DfsInv g stack vis)
    (x y : String) (hxy : Relation.ReflTransGen (gedge g) x y) :
    x ∈ vis → x ∉ stack → y ∈ vis ∧ y ∉ stack := by
  induction hxy with
  | refl => exact fun hx hxs => ⟨hx, hxs⟩
  | tail _ hstep ih =>
    intro hx hxs
    obtain ⟨h1, h2⟩ := ih hx hxs
    exact (h _ h1 h2).1 _ hstep

/-- Completeness of the neighbour loop, assuming the contract for the
recursive visits: a `false` answer preserves the invariant and leaves every
listed neighbour visited and off the stack. -/
theorem dfsListF_complete (g : List (String × List String)) (fuel : Nat)
    (hv : VisitOK g fuel) :
    ∀ ws vis stack res, dfsListF (dfsVisit g fuel) ws vis stack = res →
      (allNodes g \ vis).card < fuel →
      (∀ w ∈ ws, w ∈ allNodes g) →
      stack ⊆ vis → vis ⊆ allNodes g → DfsInv g stack vis →
      res.1 = false →
      vis ⊆ res.2 ∧ res.2 ⊆ allNodes g ∧ DfsInv g stack res.2 ∧
        ∀ w ∈ ws, w ∈ res.2 ∧ w ∉ stack := by
  intro ws
  induction ws with
  | nil =>
    intro vis stack res hres hcard hws hsv hvU hinv hfalse
    rw [dfsListF] at hres
    cases hres
    exact ⟨Finset.Subset.refl vis, hvU, hinv, by simp⟩
  | cons w ws ih =>
    intro vis stack res hres hcard hws hsv hvU hinv hfalse
    rw [dfsListF] at hres
    by_cases hw : w ∈ vis
    · simp only [hw, not_true_eq_false, if_false] at hres
      by_cases hw2 : w ∈ stack
      · simp only [hw2, if_true] at hres
        cases hres
        simp at hfalse
      · simp only [hw2, if_false] at hres
        obtain ⟨h1, h2, h3, h4⟩ := ih vis stack res hres hcard
          (fun x hx => hws x (List.mem_cons_of_mem w hx)) hsv hvU hinv hfalse
        refine ⟨h1, h2, h3, ?_⟩
        intro x hx
        rcases List.mem_cons.mp hx with rfl | hx
        · exact ⟨h1 hw, hw2⟩
        · exact h4 x hx
    · simp only [hw, not_false_eq_true, if_true] at hres
      rcases heq : dfsVisit g fuel w vis stack with ⟨b, vis₂⟩
      rw [heq] at hres
      match b with
      | true =>
        cases hres
        simp at hfalse
      | false =>
        obtain ⟨hsub, hwmem, hsubU, hinv₂⟩ := hv w vis stack (false, vis₂)
          heq hcard (hws w (List.mem_cons_self w ws)) hw hsv hvU hinv rfl
        obtain ⟨h1, h2, h3, h4⟩ := ih vis₂ stack res hres
          (lt_of_le_of_lt
            (Finset.card_le_card
              (Finset.sdiff_subset_sdiff (Finset.Subset.refl _) hsub)) hcard)
          (fun x hx => hws x (List.mem_cons_of_mem w hx))
          (hsv.trans hsub) hsubU hinv₂ hfalse
        refine ⟨hsub.trans h1, h2, h3, ?_⟩
        intro x hx
        rcases List.mem_cons.mp hx with rfl | hx
        · exact ⟨h1 hwmem, fun hc => hw (hsv hc)⟩
        · exact h4 x hx

/-- Completeness contract of `has_cycle` holds at every fuel. -/
theorem dfsVisit_complete (g : List (String × List String)) :
    ∀ fuel, VisitOK g fuel := by
  intro fuel
  induction fuel with
  | zero =>
    intro node vis stack res _ hcard
    exact absurd hcard (Nat.not_lt_zero _)
  | succ fuel ih =>
    intro node vis stack res hres hcard hnU hnv hsv hvU hinv hfalse
    rw [dfsVisit] at hres
    have hmem : node ∈ allNodes g \ vis := Finset.mem_sdiff.mpr ⟨hnU, hnv⟩
    have hcard₁ : (allNodes g \ insert node vis).card < fuel := by
      have hset : allNodes g \ insert node vis = (allNodes g \ vis).erase node := by
        ext x
        simp only [Finset.mem_sdiff, Finset.mem_insert, Finset.mem_erase]
        tauto
      have hpos : 0 < (allNodes g \ vis).card :=
        Finset.card_pos.mpr ⟨node, hmem⟩
      rw [hset, Finset.card_erase_of_mem hmem]
      omega
    have hinv₁ : DfsInv g (insert node stack) (insert node vis) := by
      intro v hv hvs
      have hvne : v ≠ node := fun h => hvs (h ▸ Finset.mem_insert_self node stack)
      have hv' : v ∈ vis := by
        rcases Finset.mem_insert.mp hv with rfl | h
        · exact absurd rfl hvne
        · exact h
      have hvs' : v ∉ stack := fun h => hvs (Finset.mem_insert_of_mem h)
      obtain ⟨hcl, hnc⟩ := hinv v hv' hvs'
      refine ⟨?_, hnc⟩
      intro w hw
      obtain ⟨hw1, hw2⟩ := hcl w hw
      have hwn : w ≠ node := fun h => hnv (h ▸ hw1)
      refine ⟨Finset.mem_insert_of_mem hw1, fun h => ?_⟩
      rcases Finset.mem_insert.mp h with h' | h'
      · exact hwn h'
      · exact hw2 h'
    obtain ⟨hsub, hsubU, hinvF, hws'⟩ := dfsListF_complete g fuel ih
      (lookupDeps g node) (insert node vis) (insert node stack) res hres hcard₁
      (fun w hw => lookupDeps_mem_allNodes g node w hw)
      (Finset.insert_subset_insert node hsv)
      (Finset.insert_subset hnU hvU)
      hinv₁ hfalse
    refine ⟨(Finset.subset_insert node vis).trans hsub,
      hsub (Finset.mem_insert_self node vis), hsubU, ?_⟩
    intro v hvF hvs
    by_cases hvn : v = node
    · subst hvn
      constructor
      · intro w hw
        obtain ⟨hw1, hw2⟩ := hws' w hw
        exact ⟨hw1, fun h => hw2 (Finset.mem_insert_of_mem h)⟩
      · intro hcyc
        obtain ⟨c, hvc, hcv⟩ := Relation.TransGen.head'_iff.mp hcyc
        obtain ⟨hc1, hc2⟩ := hws' c hvc
        obtain ⟨_, hn2⟩ := reach_closed g (insert v stack) res.2 hinvF c v hcv hc1 hc2
        exact hn2 (Finset.mem_insert_self v stack)
    · have hvs₁ : v ∉ insert node stack := fun h => by
        rcases Finset.mem_insert.mp h with h' | h'
        · exact hvn h'
        · exact hvs h'
      obtain ⟨hcl, hnc⟩ := hinvF v hvF hvs₁
      refine ⟨fun w hw => ⟨(hcl w hw).1, fun h => (hcl w hw).2 (Finset.mem_insert_of_mem h)⟩, hnc⟩

/-- Completeness of the root loop at the fuel used by
`hasCircularDependencies`: a `false` overall answer leaves every listed root
finished. -/
theorem dfsRoots_complete (g : List (String × List String)) :
    ∀ ks vis res, dfsRoots g ((allNodes g).card + 1) ks vis = res →
      (∀ k ∈ ks, k ∈ allNodes g) → vis ⊆ allNodes g → DfsInv g ∅ vis →
      res.1 = false →
      vis ⊆ res.2 ∧ res.2 ⊆ allNodes g ∧ DfsInv g ∅ res.2 ∧
        ∀ k ∈ ks, k ∈ res.2 := by
  intro ks
  induction ks with
  | nil =>
    intro vis res hres _ hvU hinv _
    rw [dfsRoots] at hres
    cases hres
    exact ⟨Finset.Subset.refl vis, hvU, hinv, by simp⟩
  | cons k ks ih =>
    intro vis res hres hks hvU hinv hfalse
    rw [dfsRoots] at hres
    by_cases hk : k ∈ vis
    · simp only [hk, not_true_eq_false, if_false] at hres
      obtain ⟨h1, h2, h3, h4⟩ := ih vis res hres
        (fun x hx => hks x (List.mem_cons_of_mem k hx)) hvU hinv hfalse
      refine ⟨h1, h2, h3, ?_⟩
      intro x hx
      rcases List.mem_cons.mp hx with rfl | hx
      · exact h1 hk
      · exact h4 x hx
    · simp only [hk, not_false_eq_true, if_true] at hres
      rcases heq : dfsVisit g ((allNodes g).card + 1) k vis ∅ with ⟨b, vis₂⟩
      rw [heq] at hres
      match b with
      | true =>
        cases hres
        simp at hfalse
      | false =>
        have hcard : (allNodes g \ vis).card < (allNodes g).card + 1 :=
          Nat.lt_succ_of_le (Finset.card_le_card Finset.sdiff_subset)
        obtain ⟨hsub, hkmem, hsubU, hinv₂⟩ := dfsVisit_complete g _ k vis ∅
          (false, vis₂) heq hcard (hks k (List.mem_cons_self k ks)) hk
          (Finset.empty_subset vis) hvU hinv rfl
        obtain ⟨h1, h2, h3, h4⟩ := ih vis₂ res hres
          (fun x hx => hks x (List.mem_cons_of_mem k hx)) hsubU hinv₂ hfalse
        refine ⟨hsub.trans h1, h2, h3, ?_⟩
        intro x hx
        rcases List.mem_cons.mp hx with rfl | hx
        · exact h1 hkmem
        · exact h4 x hx

/-- `_has_circular_dependencies` completeness: any cycle in the stage
dependency relation is detected. -/
theorem hasCirc_complete (stages : List WorkflowStage)
    (h : ∃ n, Relation.TransGen (gedge (buildGraph stages)) n n) :
    hasCircularDependencies stages = true := by
  by_contra hfalse
  rw [Bool.not_eq_true] at hfalse
  unfold hasCircularDependencies at hfalse
  obtain ⟨h1, h2, h3, h4⟩ := dfsRoots_complete (buildGraph stages)
    ((buildGraph stages).map (·.1)) ∅ _ rfl
    (fun k hk => by
      obtain ⟨p, hp, rfl⟩ := List.mem_map.mp hk
      exact key_mem_allNodes (buildGraph stages) p hp)
    (Finset.empty_subset _)
    (fun v hv => absurd hv (Finset.not_mem_empty v)) hfalse
  obtain ⟨n, hn⟩ := h
  obtain ⟨c, hc, _⟩ := Relation.TransGen.head'_iff.mp hn
  have hkey : n ∈ (buildGraph stages).map (·.1) := by
    unfold gedge lookupDeps at hc
    rcases hfind : (buildGraph stages).find? (fun p => p.1 == n) with _ | p
    · rw [hfind] at hc; simp at hc
    · have hpn : p.1 = n := by
        have hb := List.find?_some hfind
        exact eq_of_beq hb
      exact List.mem_map.mpr ⟨p, List.mem_of_find?_eq_some hfind, hpn⟩
  exact (h3 n (h4 n hkey) (Finset.not_mem_empty n)).2 hn

/-- `_has_circular_dependencies` is exact: it answers `true` precisely when
the `Stage N` dependency relation has a cycle. -/
theorem hasCircularDependencies_iff (stages : List WorkflowStage) :
    hasCircularDependencies stages = true ↔
      ∃ n, Relation.TransGen (gedge (buildGraph stages)) n n :=
  ⟨hasCirc_sound stages, hasCirc_complete stages⟩

/-! ## Shape of `validate_workflow` results -/

/-- The components of a successful-parse validation result, written out in
terms of the sub-check functions (mirrors the append order in which the
Python code fills the shared `errors` / `warnings` / `suggestions` lists). -/
theorem validateWorkflow_ok (env : ValidatorEnv) (wf : WorkflowDefinition) :
    validateWorkflow env (Except.ok wf) =
      { isValid := ((validateAgents env wf).2.1 ++ (validateMcps env wf).2.1 ++
          (validateStructure wf).1 ++ validateDependencies wf).isEmpty,
        agentsAvailable := (validateAgents env wf).1,
        mcpsAvailable := (validateMcps env wf).1,
        inputFilesValid := (validateInputFiles env wf).1,
        noConflicts := (validateNoConflicts wf.stages).1,
        errors := (validateAgents env wf).2.1 ++ (validateMcps env wf).2.1 ++
          (validateStructure wf).1 ++ validateDependencies wf,
        warnings := (validateAgents env wf).2.2.1 ++
          (validateInputFiles env wf).2.1 ++
          (validateNoConflicts wf.stages).2.1 ++ (validateStructure wf).2.1,
        suggestions := (validateAgents env wf).2.2.2 ++
          (validateMcps env wf).2.2 ++ (validateInputFiles env wf).2.2 ++
          (validateNoConflicts wf.stages).2.2 ++ (validateStructure wf).2.2 } := by
  unfold validateWorkflow
  rcases hA : validateAgents env wf with ⟨agentsOk, e1, w1, s1⟩
  rcases hM : validateMcps env wf with ⟨mcpsOk, e2, s2⟩
  rcases hI : validateInputFiles env wf with ⟨inputsOk, w3, s3⟩
  rcases hN : validateNoConflicts wf.stages with ⟨noConf, w4, s4⟩
  rcases hS : validateStructure wf with ⟨e5, w5, s5⟩
  simp only [hA, hM, hI, hN, hS]

/-- `is_valid` is exactly emptiness of the error list, on every path. -/
theorem isValid_iff_errors_nil (env : ValidatorEnv)
    (parsed : Except String WorkflowDefinition) :
    (validateWorkflow env parsed).isValid = true ↔
      (validateWorkflow env parsed).errors = [] := by
  cases parsed with
  | error msg => simp [validateWorkflow]
  | ok wf => rw [validateWorkflow_ok]; simp

/-- A detected cycle puts the circular-dependency message among the
structure errors. -/
theorem structure_errors_circular (wf : WorkflowDefinition)
    (h : hasCircularDependencies wf.stages = true) :
    "Circular dependencies detected in workflow stages" ∈
      (validateStructure wf).1 := by
  unfold validateStructure
  rcases wf.estimatedTime with _ | t <;> simp [h]

/-! ## Distinguishing the error messages of the different sub-checks

Every dependency error starts with `Stage '`, while agent, MCP and
structural errors start with `Agent`, `MCP`, `Workflow` or `Circular`; the
first character separates them. -/

theorem agent_err_ne_depMsg (a nm dep : String) :
    "Agent not available: " ++ a ≠ depErrMsg nm dep := by
  intro h
  have h2 := congrArg (fun s => s.data.head?) h
  have h3 : some 'A' = some 'S' := h2
  simp at h3

theorem mcp_err_ne_depMsg (m nm dep : String) :
    "MCP not available: " ++ m ≠ depErrMsg nm dep := by
  intro h
  have h2 := congrArg (fun s => s.data.head?) h
  have h3 : some 'M' = some 'S' := h2
  simp at h3

theorem nostages_ne_depMsg (nm dep : String) :
    "Workflow has no stages defined" ≠ depErrMsg nm dep := by
  intro h
  have h2 := congrArg (fun s => s.data.head?) h
  have h3 : some 'W' = some 'S' := h2
  simp at h3

theorem circular_ne_depMsg (nm dep : String) :
    "Circular dependencies detected in workflow stages" ≠ depErrMsg nm dep := by
  intro h
  have h2 := congrArg (fun s => s.data.head?) h
  have h3 : some 'C' = some 'S' := h2
  simp at h3

/-- Every agent error is an `Agent not available:` message. -/
theorem agent_errors_shape (env : ValidatorEnv) (wf : WorkflowDefinition)
    (s : String) (h : s ∈ (validateAgents env wf).2.1) :
    ∃ a, s = "Agent not available: " ++ a := by
  simp only [validateAgents] at h
  split at h
  · obtain ⟨a, _, rfl⟩ := List.mem_map.mp h
    exact ⟨a, rfl⟩
  · simp at h

/-- Every MCP error is an `MCP not available:` message. -/
theorem mcp_errors_shape (env : ValidatorEnv) (wf : WorkflowDefinition)
    (s : String) (h : s ∈ (validateMcps env wf).2.1) :
    ∃ m, s = "MCP not available: " ++ m := by
  simp only [validateMcps] at h
  split at h
  · obtain ⟨m, _, rfl⟩ := List.mem_map.mp h
    exact ⟨m, rfl⟩
  · simp at h

/-- Structure errors are one of the two fixed messages. -/
theorem structure_errors_shape (wf : WorkflowDefinition) (s : String)
    (h : s ∈ (validateStructure wf).1) :
    s = "Workflow has no stages defined" ∨
      s = "Circular dependencies detected in workflow stages" := by
  unfold validateStructure at h
  rcases wf.estimatedTime with _ | t <;> rw [List.mem_append] at h <;>
    rcases h with h | h <;> split at h <;> simp at h <;> tauto

/-- In the validator's result, occurrences of a dependency-error message
come from `_validate_dependencies` alone. -/
theorem count_depErrMsg (env : ValidatorEnv) (wf : WorkflowDefinition)
    (nm dep : String) :
    ((validateWorkflow env (Except.ok wf)).errors).count (depErrMsg nm dep) =
      (validateDependencies wf).count (depErrMsg nm dep) := by
  rw [validateWorkflow_ok]
  show ((validateAgents env wf).2.1 ++ (validateMcps env wf).2.1 ++
      (validateStructure wf).1 ++ validateDependencies wf).count
      (depErrMsg nm dep) = _
  rw [List.count_append, List.count_append, List.count_append]
  have h1 : ((validateAgents env wf).2.1).count (depErrMsg nm dep) = 0 := by
    rw [List.count_eq_zero]
    intro hmem
    obtain ⟨a, ha⟩ := agent_errors_shape env wf _ hmem
    exact agent_err_ne_depMsg a nm dep (ha ▸ rfl)
  have h2 : ((validateMcps env wf).2.1).count (depErrMsg nm dep) = 0 := by
    rw [List.count_eq_zero]
    intro hmem
    obtain ⟨m, hm⟩ := mcp_errors_shape env wf _ hmem
    exact mcp_err_ne_depMsg m nm dep (hm ▸ rfl)
  have h3 : ((validateStructure wf).1).count (depErrMsg nm dep) = 0 := by
    rw [List.count_eq_zero]
    intro hmem
    rcases structure_errors_shape wf _ hmem with h | h
    · exact nostages_ne_depMsg nm dep (h ▸ rfl)
    · exact circular_ne_depMsg nm dep (h ▸ rfl)
  omega

/-! ## Claim theorems: validator -/

/-- C1: cycle detection in the validator is exact on the `Stage N`
dependency graph.  The diamond workflow (Stage 2 and Stage 3 depend on
Stage 1, Stage 4 on both) validates without the
`"Circular dependencies detected in workflow stages"` error, and any
workflow whose stage dependency relation has a cycle gets that error
recorded by `validate_workflow`. -/
theorem c1_cycle_detection_exact :
    ("Circular dependencies detected in workflow stages" ∉
        (validateWorkflow testEnv (Except.ok diamondWf)).errors) ∧
      ∀ (env : ValidatorEnv) (wf : WorkflowDefinition),
        (∃ n, Relation.TransGen (gedge (buildGraph wf.stages)) n n) →
        "Circular dependencies detected in workflow stages" ∈
          (validateWorkflow env (Except.ok wf)).errors := by
  constructor
  · decide
  · intro env wf hcyc
    have h := hasCirc_complete wf.stages hcyc
    have hm := structure_errors_circular wf h
    rw [validateWorkflow_ok]
    show _ ∈ (validateAgents env wf).2.1 ++ (validateMcps env wf).2.1 ++
      (validateStructure wf).1 ++ validateDependencies wf
    simp only [List.mem_append]
    tauto

/-- Witness for C1: the two-stage cycle `Stage 1 → Stage 3 → Stage 1` is
flagged. -/
theorem c1_witness :
    "Circular dependencies detected in workflow stages" ∈
      (validateWorkflow testEnv (Except.ok cyclicWf)).errors :=
  c1_cycle_detection_exact.2 testEnv cyclicWf
    ⟨"Stage 1",
      @Relation.TransGen.head String (gedge (buildGraph cyclicWf.stages))
        "Stage 1" "Stage 3" "Stage 1" (by decide)
        (Relation.TransGen.single (by decide))⟩

/-- C6: `validate_workflow` never raises (it is a total function here by
construction); a parse failure yields exactly one error entry with all four
boolean sub-checks false and `is_valid` false, and on every path `is_valid`
holds iff the error list is empty. -/
theorem c6_parse_failure_and_isValid :
    (∀ (env : ValidatorEnv) (msg : String),
      validateWorkflow env (Except.error msg) =
        { isValid := false, agentsAvailable := false, mcpsAvailable := false,
          inputFilesValid := false, noConflicts := false,
          errors := ["Failed to parse workflow: " ++ msg],
          warnings := [], suggestions := [] }) ∧
    ∀ (env : ValidatorEnv) (parsed : Except String WorkflowDefinition),
      (validateWorkflow env parsed).isValid = true ↔
        (validateWorkflow env parsed).errors = [] :=
  ⟨fun _ _ => rfl, isValid_iff_errors_nil⟩

/-- C7: dependency referential integrity.  Every dependency token that does
not name an existing `Stage N` contributes its
`Stage '<name>' depends on non-existent stage: <dep>` error; occurrences of
such a message in the validator's error list are exactly the ones produced
by `_validate_dependencies`; and the 3-stage workflow with a stage
declaring `dependencies: ["Stage 9"]` gets exactly one such error. -/
theorem c7_dependency_referential_integrity :
    (∀ (env : ValidatorEnv) (wf : WorkflowDefinition) (st : WorkflowStage)
        (dep : String), st ∈ wf.stages → dep ∈ st.dependencies →
        dep ∉ stageNames wf →
        depErrMsg st.name dep ∈ (validateWorkflow env (Except.ok wf)).errors) ∧
    (∀ (env : ValidatorEnv) (wf : WorkflowDefinition) (nm dep : String),
      ((validateWorkflow env (Except.ok wf)).errors).count (depErrMsg nm dep) =
        (validateDependencies wf).count (depErrMsg nm dep)) ∧
    ((validateWorkflow testEnv (Except.ok danglingWf)).errors).count
        (depErrMsg "Analyze" "Stage 9") = 1 := by
  refine ⟨?_, count_depErrMsg, by decide⟩
  intro env wf st dep hst hdep hndep
  have hmem : depErrMsg st.name dep ∈ validateDependencies wf := by
    unfold validateDependencies
    exact List.mem_flatMap.mpr
      ⟨st, hst, List.mem_map.mpr
        ⟨dep, List.mem_filter.mpr ⟨hdep, by simpa using hndep⟩, rfl⟩⟩
  rw [validateWorkflow_ok]
  show _ ∈ (validateAgents env wf).2.1 ++ (validateMcps env wf).2.1 ++
    (validateStructure wf).1 ++ validateDependencies wf
  simp only [List.mem_append]
  tauto

/-- Witness for C7 at the concrete dangling reference. -/
theorem c7_witness :
    depErrMsg "Analyze" "Stage 9" ∈
      (validateWorkflow testEnv (Except.ok danglingWf)).errors :=
  c7_dependency_referential_integrity.1 testEnv danglingWf
    (mkStage "Analyze" ["Stage 9"]) "Stage 9"
    (List.mem_cons_of_mem _ (List.mem_cons_self _ _))
    (List.mem_cons_self _ _) (by decide)

/-- Counterexample to C9 as stated: a workflow with an empty goal and one
well-formed stage is reported *valid* — the empty goal only produces a
warning, not an error. -/
theorem c9_counterexample :
    (validateWorkflow testEnv (Except.ok emptyGoalWf)).isValid = true ∧
    "Workflow goal is not clearly defined" ∈
      (validateWorkflow testEnv (Except.ok emptyGoalWf)).warnings ∧
    (validateWorkflow testEnv (Except.ok emptyGoalWf)).errors = [] := by
  exact ⟨by decide, by decide, by decide⟩

/-- C9 (amended): an empty stage list is a structural *error* (making
`is_valid` false), while an empty goal produces only the
`"Workflow goal is not clearly defined"` *warning*. -/
theorem c9_amended_structure_checks :
    ∀ (env : ValidatorEnv) (wf : WorkflowDefinition),
      (wf.stages = [] →
        "Workflow has no stages defined" ∈
            (validateWorkflow env (Except.ok wf)).errors ∧
          (validateWorkflow env (Except.ok wf)).isValid = false) ∧
      (wf.goal = "" →
        "Workflow goal is not clearly defined" ∈
          (validateWorkflow env (Except.ok wf)).warnings) := by
  intro env wf
  constructor
  · intro hs
    have hm : "Workflow has no stages defined" ∈ (validateStructure wf).1 := by
      unfold validateStructure
      rcases wf.estimatedTime with _ | t <;> simp [hs]
    have hmem : "Workflow has no stages defined" ∈
        (validateWorkflow env (Except.ok wf)).errors := by
      rw [validateWorkflow_ok]
      show _ ∈ (validateAgents env wf).2.1 ++ (validateMcps env wf).2.1 ++
        (validateStructure wf).1 ++ validateDependencies wf
      simp only [List.mem_append]
      tauto
    refine ⟨hmem, ?_⟩
    rcases hres : (validateWorkflow env (Except.ok wf)).isValid with _ | _
    · rfl
    · exfalso
      have hnil := (isValid_iff_errors_nil env (Except.ok wf)).mp hres
      rw [hnil] at hmem
      simp at hmem
  · intro hg
    have hm : "Workflow goal is not clearly defined" ∈
        (validateStructure wf).2.1 := by
      unfold validateStructure
      rcases wf.estimatedTime with _ | t <;> simp [hg]
    rw [validateWorkflow_ok]
    show _ ∈ (validateAgents env wf).2.2.1 ++ (validateInputFiles env wf).2.1 ++
      (validateNoConflicts wf.stages).2.1 ++ (validateStructure wf).2.1
    simp only [List.mem_append]
    tauto

/-- Witness for C9 (amended) on the empty workflow. -/
theorem c9_witness :
    ("Workflow has no stages defined" ∈
        (validateWorkflow testEnv (Except.ok (mkWorkflow "" []))).errors ∧
      (validateWorkflow testEnv (Except.ok (mkWorkflow "" []))).isValid = false) ∧
    "Workflow goal is not clearly defined" ∈
      (validateWorkflow testEnv (Except.ok (mkWorkflow "" []))).warnings :=
  ⟨(c9_amended_structure_checks testEnv (mkWorkflow "" [])).1 rfl,
   (c9_amended_structure_checks testEnv (mkWorkflow "" [])).2 rfl⟩

/-- C10: for every successfully parsed workflow, `no_conflicts` and
`input_files_valid` are `true` unconditionally — the conflict and
input-file checks only ever append warnings and suggestions. -/
theorem c10_conflict_and_input_checks_always_pass :
    ∀ (env : ValidatorEnv) (wf : WorkflowDefinition),
      (validateWorkflow env (Except.ok wf)).noConflicts = true ∧
      (validateWorkflow env (Except.ok wf)).inputFilesValid = true := by
  intro env wf
  rw [validateWorkflow_ok]
  exact ⟨rfl, rfl⟩

/-! ## Executor lemmas -/

/-- The retry loop reports failure iff every attempted execution in its
window fails. -/
theorem retryLoop_false_iff (d : Nat) (execA : Nat → Bool) :
    ∀ (remaining attempt : Nat),
      (retryLoop d execA attempt remaining).1 = false ↔
        ∀ k, k < remaining → execA (attempt + k) = false := by
  intro remaining
  induction remaining with
  | zero => intro attempt; simp [retryLoop]
  | succ n ih =>
    intro attempt
    rw [retryLoop]
    by_cases h : execA attempt
    · simp only [h, if_true]
      constructor
      · intro hfalse; simp at hfalse
      · intro hall
        have h0 := hall 0 (Nat.succ_pos n)
        rw [Nat.add_zero, h] at h0
        cases h0
    · rcases heq : retryLoop d execA (attempt + 1) n with ⟨ok, ds, m⟩
      have ih' := ih (attempt + 1)
      rw [heq] at ih'
      simp only [h, if_false, heq]
      constructor
      · intro hok k hk
        rcases k with _ | k'
        · rw [Nat.add_zero]
          exact Bool.not_eq_true _ ▸ (by simpa using h)
        · have hx := ih'.mp hok k' (by omega)
          have harg : attempt + 1 + k' = attempt + (k' + 1) := by omega
          rw [harg] at hx
          exact hx
      · intro hall
        apply ih'.mpr
        intro k hk
        have hx := hall (k + 1) (by omega)
        have harg : attempt + (k + 1) = attempt + 1 + k := by omega
        rw [harg] at hx
        exact hx

/-- With `max_retries = 3` and every retry failing, `_retry_stage` sleeps
`d·2⁰, d·2¹, d·2²` (in that order), executes 3 times and reports failure. -/
theorem retryStage_allfail3 (d : Nat) (execA : Nat → Bool)
    (h0 : execA 0 = false) (h1 : execA 1 = false) (h2 : execA 2 = false) :
    retryStage 3 d execA = (false, [d * 2 ^ 0, d * 2 ^ 1, d * 2 ^ 2], 3) := by
  simp [retryStage, retryLoop, h0, h1, h2]

/-- `stages_completed` equals the number of succeeded trace entries. -/
theorem runStages_completed_countP (policy : String) (maxR d : Nat)
    (exec : Nat → Nat → Bool) :
    ∀ (stages : List WorkflowStage) (i : Nat),
      (runStages policy maxR d exec stages i).1 =
        ((runStages policy maxR d exec stages i).2.2).countP
          (fun t => t.succeeded) := by
  intro stages
  induction stages with
  | nil => intro i; simp [runStages]
  | cons st rest ih =>
    intro i
    rw [runStages]
    by_cases h : exec i 0
    · rcases heq : runStages policy maxR d exec rest (i + 1) with ⟨c, p, tr⟩
      have ihr := ih (i + 1)
      rw [heq] at ihr
      simp only [] at ihr
      simp [h, heq, List.countP_cons, ihr]
    · by_cases hstop : policy = "stop"
      · simp [h, hstop, List.countP_cons]
      · by_cases hretry : policy = "retry"
        · rcases heq2 : retryStage maxR d (fun k => exec i (k + 1)) with ⟨ok, ds, n⟩
          match ok with
          | true =>
            rcases heq : runStages policy maxR d exec rest (i + 1) with ⟨c, p, tr⟩
            have ihr := ih (i + 1)
            rw [heq] at ihr
            simp only [] at ihr
            simp [h, hstop, hretry, heq2, heq, List.countP_cons, ihr]
          | false =>
            simp [h, hstop, hretry, heq2, List.countP_cons]
        · rcases heq : runStages policy maxR d exec rest (i + 1) with ⟨c, p, tr⟩
          have ihr := ih (i + 1)
          rw [heq] at ihr
          simp only [] at ihr
          simp [h, hstop, hretry, heq, List.countP_cons, ihr]

/-- Under the `retry` policy with `max_retries = 3`, the trace entry of any
reached stage whose executions always fail records 4 attempts (1 initial +
3 retries), the exponential-backoff sleeps `d·2⁰, d·2¹, d·2²`, and no
success. -/
theorem runStages_retry_trace (d : Nat) (exec : Nat → Nat → Bool) :
    ∀ (stages : List WorkflowStage) (i j : Nat) (e : StageTrace),
      ((runStages "retry" 3 d exec stages i).2.2)[j]? = some e →
      (∀ k, exec (i + j) k = false) →
      e = ⟨4, [d * 2 ^ 0, d * 2 ^ 1, d * 2 ^ 2], false⟩ := by
  intro stages
  induction stages with
  | nil => intro i j e hget _; simp [runStages] at hget
  | cons st rest ih =>
    intro i j e hget hall
    rw [runStages] at hget
    by_cases h : exec i 0
    · rcases j with _ | j'
      · have h0 := hall 0
        rw [Nat.add_zero, h] at h0
        cases h0
      · rcases heq : runStages "retry" 3 d exec rest (i + 1) with ⟨c, p, tr⟩
        rw [heq] at hget
        simp only [h, if_true] at hget
        refine ih (i + 1) j' e (by rw [heq]; simpa using hget) ?_
        intro k
        have hx := hall k
        have harg : i + (j' + 1) = i + 1 + j' := by omega
        rw [harg] at hx
        exact hx
    · rw [if_neg (by simpa using h), if_neg (by decide), if_pos rfl] at hget
      rcases heq2 : retryStage 3 d (fun k => exec i (k + 1)) with ⟨ok, ds, n⟩
      rw [heq2] at hget
      match ok with
      | true =>
        rcases j with _ | j'
        · exfalso
          have hfail : (retryLoop d (fun k => exec i (k + 1)) 0 3).1 = false := by
            rw [retryLoop_false_iff]
            intro k _
            have hx := hall (k + 1)
            rw [Nat.add_zero] at hx
            simpa using hx
          rw [show retryLoop d (fun k => exec i (k + 1)) 0 3 =
            retryStage 3 d (fun k => exec i (k + 1)) from rfl, heq2] at hfail
          cases hfail
        · rcases heq : runStages "retry" 3 d exec rest (i + 1) with ⟨c, p, tr⟩
          rw [heq] at hget
          simp only at hget
          refine ih (i + 1) j' e (by rw [heq]; simpa using hget) ?_
          intro k
          have hx := hall k
          have harg : i + (j' + 1) = i + 1 + j' := by omega
          rw [harg] at hx
          exact hx
      | false =>
        rcases j with _ | j'
        · have hA0 : (fun k => exec i (k + 1)) 0 = false := by
            have hx := hall 1; rw [Nat.add_zero] at hx; simpa using hx
          have hA1 : (fun k => exec i (k + 1)) 1 = false := by
            have hx := hall 2; rw [Nat.add_zero] at hx; simpa using hx
          have hA2 : (fun k => exec i (k + 1)) 2 = false := by
            have hx := hall 3; rw [Nat.add_zero] at hx; simpa using hx
          have hrs := retryStage_allfail3 d (fun k => exec i (k + 1)) hA0 hA1 hA2
          rw [hrs] at heq2
          injection heq2 with hok hrest
          injection hrest with hds hn
          subst hds
          subst hn
          simp only [Bool.false_eq_true, if_false, List.getElem?_cons_zero,
            Option.some.injEq] at hget
          rw [← hget]
        · simp at hget

/-- Partial-results characterisation under the `stop` policy. -/
theorem runStages_stop_partial (maxR d : Nat) (exec : Nat → Nat → Bool) :
    ∀ (stages : List WorkflowStage) (i : Nat),
      (runStages "stop" maxR d exec stages i).2.1 = true ↔
        ∃ j, j < stages.length ∧ exec (i + j) 0 = false := by
  intro stages
  induction stages with
  | nil => intro i; simp [runStages]
  | cons st rest ih =>
    intro i
    rw [runStages]
    by_cases h : exec i 0
    · rcases heq : runStages "stop" maxR d exec rest (i + 1) with ⟨c, p, tr⟩
      have ih' := ih (i + 1)
      rw [heq] at ih'
      simp only [h, if_true, heq]
      constructor
      · intro hp
        obtain ⟨j, hj, hx⟩ := ih'.mp hp
        refine ⟨j + 1, by simpa using Nat.succ_lt_succ hj, ?_⟩
        rw [show i + (j + 1) = i + 1 + j from by omega]
        exact hx
      · rintro ⟨j, hj, hx⟩
        rcases j with _ | j'
        · rw [Nat.add_zero, h] at hx
          cases hx
        · apply ih'.mpr
          refine ⟨j', by simpa using hj, ?_⟩
          rw [show i + 1 + j' = i + (j' + 1) from by omega]
          exact hx
    · rw [if_neg (by simpa using h), if_pos rfl]
      constructor
      · intro _
        refine ⟨0, Nat.succ_pos _, ?_⟩
        rw [Nat.add_zero]
        simpa using h
      · intro _; rfl

/-- Partial-results characterisation under the `retry` policy: partial iff
some stage fails its initial attempt and all `max_retries` retries. -/
theorem runStages_retry_partial (maxR d : Nat) (exec : Nat → Nat → Bool) :
    ∀ (stages : List WorkflowStage) (i : Nat),
      (runStages "retry" maxR d exec stages i).2.1 = true ↔
        ∃ j, j < stages.length ∧ ∀ k, k ≤ maxR → exec (i + j) k = false := by
  intro stages
  induction stages with
  | nil => intro i; simp [runStages]
  | cons st rest ih =>
    intro i
    rw [runStages]
    by_cases h : exec i 0
    · rcases heq : runStages "retry" maxR d exec rest (i + 1) with ⟨c, p, tr⟩
      have ih' := ih (i + 1)
      rw [heq] at ih'
      simp only [h, if_true, heq]
      constructor
      · intro hp
        obtain ⟨j, hj, hx⟩ := ih'.mp hp
        refine ⟨j + 1, by simpa using Nat.succ_lt_succ hj, ?_⟩
        rw [show i + (j + 1) = i + 1 + j from by omega]
        exact hx
      · rintro ⟨j, hj, hx⟩
        rcases j with _ | j'
        · exfalso
          have h0 := hx 0 (Nat.zero_le _)
          rw [Nat.add_zero, h] at h0
          cases h0
        · apply ih'.mpr
          refine ⟨j', by simpa using hj, ?_⟩
          rw [show i + 1 + j' = i + (j' + 1) from by omega]
          exact hx
    · rw [if_neg (by simpa using h), if_neg (by decide), if_pos rfl]
      rcases heq2 : retryStage maxR d (fun k => exec i (k + 1)) with ⟨ok, ds, n⟩
      match ok with
      | true =>
        rcases heq : runStages "retry" maxR d exec rest (i + 1) with ⟨c, p, tr⟩
        have ih' := ih (i + 1)
        rw [heq] at ih'
        simp only [heq]
        constructor
        · intro hp
          obtain ⟨j, hj, hx⟩ := ih'.mp hp
          refine ⟨j + 1, by simpa using Nat.succ_lt_succ hj, ?_⟩
          rw [show i + (j + 1) = i + 1 + j from by omega]
          exact hx
        · rintro ⟨j, hj, hx⟩
          rcases j with _ | j'
          · exfalso
            have hfail : (retryLoop d (fun k => exec i (k + 1)) 0 maxR).1 = false := by
              rw [retryLoop_false_iff]
              intro k hk
              have := hx (k + 1) (by omega)
              rw [Nat.add_zero] at this
              simpa using this
            rw [show retryLoop d (fun k => exec i (k + 1)) 0 maxR =
              retryStage maxR d (fun k => exec i (k + 1)) from rfl, heq2] at hfail
            cases hfail
          · apply ih'.mpr
            refine ⟨j', by simpa using hj, ?_⟩
            rw [show i + 1 + j' = i + (j' + 1) from by omega]
            exact hx
      | false =>
        constructor
        · intro _
          refine ⟨0, Nat.succ_pos _, ?_⟩
          intro k hk
          rcases k with _ | k'
          · rw [Nat.add_zero]; simpa using h
          · have hfail : (retryLoop d (fun k => exec i (k + 1)) 0 maxR).1 = false := by
              rw [show retryLoop d (fun k => exec i (k + 1)) 0 maxR =
                retryStage maxR d (fun k => exec i (k + 1)) from rfl, heq2]
            have := (retryLoop_false_iff d (fun k => exec i (k + 1)) maxR 0).mp
              hfail k' (by omega)
            rw [Nat.add_zero]
            simpa using this
        · intro _; rfl

/-- Under any policy other than `stop` and `retry` (notably `continue`),
`partial_results` stays `false`. -/
theorem runStages_other_partial (policy : String) (maxR d : Nat)
    (exec : Nat → Nat → Bool) (hstop : policy ≠ "stop")
    (hretry : policy ≠ "retry") :
    ∀ (stages : List WorkflowStage) (i : Nat),
      (runStages policy maxR d exec stages i).2.1 = false := by
  intro stages
  induction stages with
  | nil => intro i; simp [runStages]
  | cons st rest ih =>
    intro i
    rw [runStages]
    by_cases h : exec i 0
    · rcases heq : runStages policy maxR d exec rest (i + 1) with ⟨c, p, tr⟩
      have ihr := ih (i + 1)
      rw [heq] at ihr
      simpa [h, heq] using ihr
    · rw [if_neg (by simpa using h), if_neg hstop, if_neg hretry]
      rcases heq : runStages policy maxR d exec rest (i + 1) with ⟨c, p, tr⟩
      have ihr := ih (i + 1)
      rw [heq] at ihr
      simpa [heq] using ihr

/-! ## Claim theorems: executor -/

/-- C2: under the `retry` policy with `max_retries = 3` and
`retry_delay = d`, a reached stage whose execution always fails is attempted
exactly 4 times (1 initial + 3 retries), each retry `k` is preceded by a
sleep of `d * 2 ^ k` (the recorded delays, in order), the stage's trace is
not marked succeeded, and `stages_completed` counts exactly the succeeded
trace entries — so the terminally failed stage is not counted. -/
theorem c2_retry_policy_attempts :
    ∀ (wf : WorkflowDefinition) (d : Nat) (exec : Nat → Nat → Bool)
      (outDir : String) (j : Nat) (e : StageTrace),
      ((runStages "retry" 3 d exec wf.stages 0).2.2)[j]? = some e →
      (∀ k, exec j k = false) →
      e = ⟨4, [d * 2 ^ 0, d * 2 ^ 1, d * 2 ^ 2], false⟩ ∧
        e.succeeded = false ∧
        (performExecution wf "retry" 3 d exec outDir).stagesCompleted =
          ((runStages "retry" 3 d exec wf.stages 0).2.2).countP
            (fun t => t.succeeded) := by
  intro wf d exec outDir j e hget hall
  have he := runStages_retry_trace d exec wf.stages 0 j e hget
    (by intro k; simpa using hall k)
  refine ⟨he, by rw [he], ?_⟩
  rcases heq : runStages "retry" 3 d exec wf.stages 0 with ⟨c, p, tr⟩
  have hcount := runStages_completed_countP "retry" 3 d exec wf.stages 0
  rw [heq] at hcount
  simp [performExecution, heq, hcount]

/-- Witness for C2: a one-stage workflow that always fails, `d = 5`. -/
theorem c2_witness :
    ((runStages "retry" 3 5 (fun _ _ => false) oneStageWf.stages 0).2.2)[0]? =
        some ⟨4, [5 * 2 ^ 0, 5 * 2 ^ 1, 5 * 2 ^ 2], false⟩ ∧
      (performExecution oneStageWf "retry" 3 5 (fun _ _ => false)
          "out").stagesCompleted =
        ((runStages "retry" 3 5 (fun _ _ => false) oneStageWf.stages 0).2.2).countP
          (fun t => t.succeeded) :=
  ⟨rfl,
   (c2_retry_policy_attempts oneStageWf 5 (fun _ _ => false) "out" 0
      ⟨4, [5 * 2 ^ 0, 5 * 2 ^ 1, 5 * 2 ^ 2], false⟩ rfl (fun _ => rfl)).2.2⟩

/-- C3 (code bug): when parsing fails, `execute_workflow` does *not* return
a failed `ExecutionResult` — the `except` block evaluates the unbound local
`workflow` (line 70) and an `UnboundLocalError` escapes to the caller. -/
theorem c3_parse_failure_raises :
    ∀ (e : String) (dryRun : Bool) (policy : String) (maxRetries d : Nat)
      (exec : Nat → Nat → Bool) (outDir : String),
      executeWorkflow (Except.error e) dryRun policy maxRetries d exec outDir =
        Except.error
          "UnboundLocalError: local variable \x27workflow\x27 referenced before assignment" :=
  fun _ _ _ _ _ _ _ => rfl

/-- C4 (amended): in a real (non-dry) run, `success` equals the test
`stages_completed == total_stages`. -/
theorem c4_amended_success_iff_all_completed :
    ∀ (wf : WorkflowDefinition) (policy : String) (maxRetries d : Nat)
      (exec : Nat → Nat → Bool) (outDir : String),
      (performExecution wf policy maxRetries d exec outDir).success =
        decide
          ((performExecution wf policy maxRetries d exec outDir).stagesCompleted =
            (performExecution wf policy maxRetries d exec outDir).totalStages) := by
  intro wf policy maxRetries d exec outDir
  rcases heq : runStages policy maxRetries d exec wf.stages 0 with ⟨c, p, tr⟩
  simp [performExecution, heq]

/-- Counterexample to C4 as stated: a dry run of a one-stage workflow
returns `success = true` although `stages_completed = 0 ≠ 1 = total_stages`. -/
theorem c4_counterexample :
    executeWorkflow (Except.ok oneStageWf) true "retry" 3 5 (fun _ _ => true)
        "out" = Except.ok (performDryRun oneStageWf) ∧
      (performDryRun oneStageWf).success = true ∧
      (performDryRun oneStageWf).stagesCompleted = 0 ∧
      (performDryRun oneStageWf).totalStages = 1 ∧
      (performDryRun oneStageWf).stagesCompleted ≠
        (performDryRun oneStageWf).totalStages :=
  ⟨rfl, rfl, rfl, rfl, by decide⟩

/-- C5 (amended): in a real run, `partial_results` is true iff the run
stopped at a failing stage under the `stop` policy, or a stage failed its
initial attempt and all `max_retries` retries under the `retry` policy;
under any other policy value — in particular `continue` — it is always
false, even when some but not all stages completed. -/
theorem c5_amended_partial_results :
    ∀ (wf : WorkflowDefinition) (maxR d : Nat) (exec : Nat → Nat → Bool)
      (outDir : String),
      ((performExecution wf "stop" maxR d exec outDir).partResults = true ↔
        ∃ j, j < wf.stages.length ∧ exec j 0 = false) ∧
      ((performExecution wf "retry" maxR d exec outDir).partResults = true ↔
        ∃ j, j < wf.stages.length ∧ ∀ k, k ≤ maxR → exec j k = false) ∧
      ∀ policy, policy ≠ "stop" → policy ≠ "retry" →
        (performExecution wf policy maxR d exec outDir).partResults = false := by
  intro wf maxR d exec outDir
  refine ⟨?_, ?_, ?_⟩
  · rcases heq : runStages "stop" maxR d exec wf.stages 0 with ⟨c, p, tr⟩
    have hch := runStages_stop_partial maxR d exec wf.stages 0
    rw [heq] at hch
    simpa [performExecution, heq] using hch
  · rcases heq : runStages "retry" maxR d exec wf.stages 0 with ⟨c, p, tr⟩
    have hch := runStages_retry_partial maxR d exec wf.stages 0
    rw [heq] at hch
    simpa [performExecution, heq] using hch
  · intro policy h1 h2
    rcases heq : runStages policy maxR d exec wf.stages 0 with ⟨c, p, tr⟩
    have hch := runStages_other_partial policy maxR d exec h1 h2 wf.stages 0
    rw [heq] at hch
    simpa [performExecution, heq] using hch

/-- Witness for C5 (amended): the `continue` policy leaves
`partial_results` false. -/
theorem c5_witness :
    (performExecution contWf "continue" 3 5 contExec "out").partResults = false :=
  (c5_amended_partial_results contWf 3 5 contExec "out").2.2 "continue"
    (by decide) (by decide)

/-- Counterexample to C5 as stated: under the `continue` policy, stage 1 of
2 fails terminally and stage 2 still runs — some but not all stages
completed — yet `partial_results` is `false`. -/
theorem c5_counterexample :
    (performExecution contWf "continue" 3 5 contExec "out").stagesCompleted = 1 ∧
      (performExecution contWf "continue" 3 5 contExec "out").totalStages = 2 ∧
      (performExecution contWf "continue" 3 5 contExec "out").partResults =
        false := by
  exact ⟨by decide, by decide, by decide⟩

/-! ## Parameter-parsing lemmas (C8) -/

/-- Splitting on a character that does not occur yields the whole input. -/
theorem pySplitL_of_not_mem (c : Char) (l : List Char) (h : c ∉ l) :
    pySplitL c l = [l] := by
  induction l with
  | nil => rfl
  | cons a rest ih =>
    have hna : a ≠ c := fun hh => h (hh ▸ List.mem_cons_self a rest)
    have hrest : c ∉ rest := fun hm => h (List.mem_cons_of_mem a hm)
    have ih2 := ih hrest
    simp only [pySplitL, List.foldr_cons] at ih2 ⊢
    rw [ih2]
    simp [hna]

/-- Stripping a list that starts with a non-space character and whose
(nonempty) suffix has no trailing space is the identity. -/
theorem pyStripL_prefix_append (a : Char) (lit v : List Char)
    (ha : pyIsSpace a = false) (hv : v ≠ [])
    (h3 : v.reverse.dropWhile pyIsSpace = v.reverse) :
    pyStripL ((a :: lit) ++ v) = (a :: lit) ++ v := by
  obtain ⟨c, t, hct⟩ : ∃ c t, v.reverse = c :: t := by
    rcases hrev : v.reverse with _ | ⟨c, t⟩
    · exact absurd (by simpa using congrArg List.reverse hrev) hv
    · exact ⟨c, t, rfl⟩
  have hc : pyIsSpace c = false := by
    by_contra hcc
    rw [Bool.not_eq_false] at hcc
    rw [hct, List.dropWhile_cons, hcc, if_pos rfl] at h3
    have hlen := congrArg List.length h3
    have hle := (List.dropWhile_sublist (l := t) pyIsSpace).length_le
    simp at hlen
    omega
  unfold pyStripL
  have h1 : ((a :: lit) ++ v).dropWhile pyIsSpace = (a :: lit) ++ v := by
    rw [List.cons_append, List.dropWhile_cons, ha]
    simp
  rw [h1]
  have h2 : ((a :: lit) ++ v).reverse = (c :: t) ++ (a :: lit).reverse := by
    rw [List.reverse_append, hct]
  rw [h2]
  have h4 : ((c :: t) ++ (a :: lit).reverse).dropWhile pyIsSpace =
      (c :: t) ++ (a :: lit).reverse := by
    rw [List.cons_append, List.dropWhile_cons, hc]
    simp
  rw [h4, ← h2, List.reverse_reverse]

/-- Stripping a single leading space from an already-stripped list. -/
theorem pyStripL_space_cons (v : List Char)
    (h2 : v.dropWhile pyIsSpace = v)
    (h3 : v.reverse.dropWhile pyIsSpace = v.reverse) :
    pyStripL (' ' :: v) = v := by
  unfold pyStripL
  rw [List.dropWhile_cons]
  rw [show pyIsSpace ' ' = true from rfl, if_pos rfl, h2, h3,
    List.reverse_reverse]

/-- The `_parse_parameters` fallback: for any parameter line
`- key: <v>` whose value text (up to the first `(`) fails the literal
parse, the raw (stripped) text is kept as a string.  The hypotheses say
that `v` is a nonempty single-line already-stripped value text. -/
theorem parseParameters_fallback (v : List Char)
    (hv : v ≠ []) (hnl : Char.ofNat 10 ∉ v)
    (h2 : v.dropWhile pyIsSpace = v)
    (h3 : v.reverse.dropWhile pyIsSpace = v.reverse)
    (hact : v.takeWhile (fun c => c != '(') ≠ [])
    (hfail : literalEval ⟨pyStripL (v.takeWhile (fun c => c != '('))⟩ = none) :
    parseParameters ⟨"- key: ".data ++ v⟩ =
      [("key", PyValue.str ⟨pyStripL (v.takeWhile (fun c => c != '('))⟩)] := by
  have hsplit : pySplitL (Char.ofNat 10) ("- key: ".data ++ v) =
      ["- key: ".data ++ v] := by
    apply pySplitL_of_not_mem
    intro hmem
    rcases List.mem_append.mp hmem with hmem | hmem
    · exact absurd hmem (by decide)
    · exact hnl hmem
  have hline : parseParamLine ("- key: ".data ++ v) =
      some ("key", PyValue.str ⟨pyStripL (v.takeWhile (fun c => c != '('))⟩) := by
    have hstrip1 : pyStripL ("- key: ".data ++ v) = "- key: ".data ++ v :=
      pyStripL_prefix_append '-' (" key: ".data) v rfl hv h3
    have hstrip2 : pyStripL ("key: ".data ++ v) = "key: ".data ++ v :=
      pyStripL_prefix_append 'k' ("ey: ".data) v rfl hv h3
    have hsp : splitFirst ':' ("key: ".data ++ v) = some ("key".data, ' ' :: v) :=
      rfl
    have hstrip3 : pyStripL (' ' :: v) = v := pyStripL_space_cons v h2 h3
    simp only [parseParamLine, hstrip1]
    rw [if_pos ⟨rfl, Or.inl rfl⟩]
    rw [show ("- key: ".data ++ v).drop 2 = "key: ".data ++ v from rfl]
    rw [hstrip2, hsp]
    simp only [hstrip3]
    rw [if_neg hact, hfail]
    rfl
  unfold parseParameters
  rw [show (String.mk ("- key: ".data ++ v)).data = "- key: ".data ++ v from rfl,
    hsplit, List.foldl_cons, List.foldl_nil, hline]
  rfl

/-! ### All-alphabetic value texts

CPython parses an all-letter text as a bare *name*: unless it is exactly
`True`, `False` or `None` it is not a literal, `ast.literal_eval` raises,
and `_parse_parameters` keeps the raw string.  The lemmas below show the
model agrees on this whole class of texts, which is the domain of C8's
universally quantified fallback clause. -/

theorem pyAlpha_ne (c : Char) (h : pyAlpha c = true) (k : Char)
    (hk : pyAlpha k = false) : c ≠ k := by
  intro e
  rw [e, hk] at h
  cases h

theorem pyAlpha_not_space (c : Char) (h : pyAlpha c = true) :
    pyIsSpace c = false := by
  have h1 := pyAlpha_ne c h ' ' (by decide)
  have h2 := pyAlpha_ne c h (Char.ofNat 9) (by decide)
  have h3 := pyAlpha_ne c h (Char.ofNat 10) (by decide)
  have h4 := pyAlpha_ne c h (Char.ofNat 13) (by decide)
  have h5 := pyAlpha_ne c h (Char.ofNat 11) (by decide)
  have h6 := pyAlpha_ne c h (Char.ofNat 12) (by decide)
  simp [pyIsSpace, beq_eq_false_iff_ne, h1, h2, h3, h4, h5, h6]

theorem pyAlpha_not_digit (c : Char) (h : pyAlpha c = true) :
    pyIsDigit c = false := by
  by_contra hd
  rw [Bool.not_eq_false] at hd
  simp only [pyAlpha, Bool.or_eq_true, Bool.and_eq_true, decide_eq_true_eq] at h
  simp only [pyIsDigit, Bool.and_eq_true, decide_eq_true_eq] at hd
  omega

theorem dropWhile_eq_self_of_all (p : Char → Bool) (l : List Char)
    (h : ∀ c ∈ l, p c = false) : l.dropWhile p = l := by
  induction l with
  | nil => rfl
  | cons a rest _ =>
    rw [List.dropWhile_cons, h a (List.mem_cons_self a rest)]
    simp

theorem takeWhile_eq_self_of_all (p : Char → Bool) (l : List Char)
    (h : ∀ c ∈ l, p c = true) : l.takeWhile p = l := by
  induction l with
  | nil => rfl
  | cons a rest ih =>
    rw [List.takeWhile_cons, h a (List.mem_cons_self a rest)]
    simp [ih (fun c hc => h c (List.mem_cons_of_mem a hc))]

theorem pyStripL_eq_self (v : List Char)
    (h2 : v.dropWhile pyIsSpace = v)
    (h3 : v.reverse.dropWhile pyIsSpace = v.reverse) : pyStripL v = v := by
  unfold pyStripL
  rw [h2, h3, List.reverse_reverse]

/-- A number token cannot start with a letter. -/
theorem parseUnsignedNum_alpha_head (c : Char) (rest : List Char)
    (hc : pyAlpha c = true) : parseUnsignedNum (c :: rest) = none := by
  have hc0 : c ≠ '0' := pyAlpha_ne c hc '0' (by decide)
  have hdig : pyIsDigit c = false := pyAlpha_not_digit c hc
  have hdot : c ≠ '.' := pyAlpha_ne c hc '.' (by decide)
  unfold parseUnsignedNum
  split
  · next heq =>
    injection heq with h1 _
    exact absurd h1 hc0
  · unfold parseDecFloat
    simp [hdig, beq_eq_false_iff_ne.mpr hdot]

/-- `literalEval` fails on every nonempty all-alphabetic text other than
the keywords, exactly as `ast.literal_eval` does (such texts are bare
names). -/
theorem literalEval_alpha_none (v : List Char) (hv : v ≠ [])
    (halpha : ∀ c ∈ v, pyAlpha c = true)
    (hT : v ≠ "True".data) (hF : v ≠ "False".data) (hN : v ≠ "None".data) :
    literalEval ⟨v⟩ = none := by
  have hskipv : skipWs v = v :=
    dropWhile_eq_self_of_all pyIsSpace v
      (fun c hc => pyAlpha_not_space c (halpha c hc))
  have hkw : ∀ (kw : List Char) (n : Nat), kw.isPrefixOf v = true →
      v.drop kw.length = v.drop n → v ≠ kw →
      skipWs (v.drop n) ≠ [] := by
    intro kw n hpre hdrop hne
    obtain ⟨t, ht⟩ := List.isPrefixOf_iff_prefix.mp hpre
    have hdt : v.drop n = t := by
      rw [← hdrop, ← ht]
      exact List.drop_left kw t
    have htne : t ≠ [] := by
      intro h0
      apply hne
      rw [← ht, h0, List.append_nil]
    have hskt : skipWs t = t :=
      dropWhile_eq_self_of_all pyIsSpace t
        (fun c hc => pyAlpha_not_space c
          (halpha c (by rw [← ht]; exact List.mem_append_right kw hc)))
    rw [hdt, hskt]
    exact htne
  unfold literalEval
  rw [show parseLit (2 * (String.mk v).length + 2) (String.mk v).data =
      parseLit (2 * (String.mk v).length + 1 + 1) v from rfl]
  simp only [parseLit, hskipv]
  by_cases hpT : "True".data.isPrefixOf v = true
  · rw [if_pos hpT]
    have := hkw "True".data 4 hpT rfl (fun e => hT e)
    simp [this]
  · rw [if_neg (by simpa using hpT)]
    by_cases hpF : "False".data.isPrefixOf v = true
    · rw [if_pos hpF]
      have := hkw "False".data 5 hpF rfl (fun e => hF e)
      simp [this]
    · rw [if_neg (by simpa using hpF)]
      by_cases hpN : "None".data.isPrefixOf v = true
      · rw [if_pos hpN]
        have := hkw "None".data 4 hpN rfl (fun e => hN e)
        simp [this]
      · rw [if_neg (by simpa using hpN)]
        rcases v with _ | ⟨c, rest⟩
        · exact absurd rfl hv
        have hc := halpha c (List.mem_cons_self c rest)
        split
        · next w r heq =>
          exfalso
          split at heq
          · next rest1 heq2 =>
            injection heq2 with h1 _
            exact pyAlpha_ne c hc '[' (by decide) h1
          · next rest1 heq2 =>
            injection heq2 with h1 _
            exact pyAlpha_ne c hc '(' (by decide) h1
          · next c2 rest2 heq2 =>
            injection heq2 with h1 h2
            subst h1
            subst h2
            rw [if_neg (by
              rintro (rfl | rfl)
              · exact absurd hc (by decide)
              · exact absurd hc (by decide))] at heq
            rw [if_neg (pyAlpha_ne c hc '-' (by decide))] at heq
            rw [if_neg (pyAlpha_ne c hc '+' (by decide))] at heq
            rw [parseUnsignedNum_alpha_head c rest hc] at heq
            exact Option.noConfusion heq
          · next heq2 =>
            exact Option.noConfusion heq
        · rfl

/-! ## Claim theorems: parameter parsing (C8) -/

/-- Counterexample to C8 as stated: the value text `true` (lowercase) is
*not* a Python literal, so it is kept as the string `"true"`, not parsed as
a boolean. -/
theorem c8_counterexample :
    parseParameters "- flag: true" = [("flag", PyValue.str "true")] ∧
      PyValue.str "true" ≠ PyValue.bool true ∧
      PyValue.str "true" ≠ PyValue.bool false :=
  ⟨rfl, fun h => PyValue.noConfusion h, fun h => PyValue.noConfusion h⟩

/-- C8 (amended): parameter parsing takes the text up to the first `(` as
the value text and applies the (total, never-throwing) literal parse, so
`[1, 2, 3]`, `True` and `42` yield a list, a boolean and an integer, while
every bare alphabetic word other than `True`/`False`/`None` — such as
lowercase `true` — fails the literal parse (it is a name, not a literal)
and is kept unchanged as a string. -/
theorem c8_amended_parameter_parsing :
    parseParameters "- a: [1, 2, 3] (list)" =
        [("a", PyValue.list [.int 1, .int 2, .int 3])] ∧
      parseParameters "- b: True (flag)" = [("b", PyValue.bool true)] ∧
      parseParameters "- c: 42 (count)" = [("c", PyValue.int 42)] ∧
      ∀ v : List Char, v ≠ [] → (∀ c ∈ v, pyAlpha c = true) →
        v ≠ "True".data → v ≠ "False".data → v ≠ "None".data →
        parseParameters ⟨"- key: ".data ++ v⟩ =
          [("key", PyValue.str ⟨v⟩)] := by
  refine ⟨rfl, rfl, rfl, ?_⟩
  intro v hv halpha hT hF hN
  have h2 : v.dropWhile pyIsSpace = v :=
    dropWhile_eq_self_of_all pyIsSpace v
      (fun c hc => pyAlpha_not_space c (halpha c hc))
  have h3 : v.reverse.dropWhile pyIsSpace = v.reverse :=
    dropWhile_eq_self_of_all pyIsSpace v.reverse
      (fun c hc => pyAlpha_not_space c (halpha c (List.mem_reverse.mp hc)))
  have htake : v.takeWhile (fun c => c != '(') = v :=
    takeWhile_eq_self_of_all _ v
      (fun c hc => bne_iff_ne.mpr (pyAlpha_ne c (halpha c hc) '(' (by decide)))
  have hstrip : pyStripL (v.takeWhile (fun c => c != '(')) = v := by
    rw [htake]
    exact pyStripL_eq_self v h2 h3
  have hnl : Char.ofNat 10 ∉ v := fun hm => absurd (halpha _ hm) (by decide)
  have hfail : literalEval ⟨pyStripL (v.takeWhile (fun c => c != '('))⟩ = none := by
    rw [hstrip]
    exact literalEval_alpha_none v hv halpha hT hF hN
  have hres := parseParameters_fallback v hv hnl h2 h3
    (by rw [htake]; exact hv) hfail
  rw [hstrip] at hres
  exact hres

/-- Witness for C8 (amended) at the concrete non-literal value `zzz`. -/
theorem c8_witness :
    parseParameters ⟨"- key: ".data ++ "zzz".data⟩ =
      [("key", PyValue.str ⟨"zzz".data⟩)] :=
  c8_amended_parameter_parsing.2.2.2 "zzz".data (by decide) (by decide)
    (by decide) (by decide) (by decide)

end CCC
